import Mathlib

set_option maxHeartbeats 1000000
set_option maxRecDepth 4000

/-!
Verification development for the yarn-plugin-nixify generator.

The embedding models the generator that runs after `yarn install`
(`src/unnamed/part_000`) and the command-layer generator (`src/src/index.ts`).
External collaborators from `@yarnpkg/core`, `@yarnpkg/fslib` and
`@yarnpkg/plugin-patch` (path utilities, `getLocatorPath`, `slugifyLocator`,
checksum hashing, process execution) are modelled as oracle function fields
of an environment structure; the resolved graph (`storedPackages`,
`storedResolutions`, `storedChecksums`, `storedBuildState`) is modelled as
association lists mirroring the JS `Map`s.
-/

/-- Result of a fueled computation: `fuelOut` marks that the recursion budget
was exhausted (the JS original would still be recursing), `err` models a
thrown `Error`, `ok` a normal return. -/
inductive CtResult (α : Type) where
  | fuelOut : CtResult α
  | err : String → CtResult α
  | ok : α → CtResult α
deriving DecidableEq, Repr

/-- A resolved package (`Package` from `@yarnpkg/core`).
`locatorStr` is `structUtils.stringifyLocator(pkg)`, `devirtHash` is
`structUtils.devirtualizeLocator(pkg).locatorHash` (meaningful only when the
locator is virtual), `patchSourceHash` is
`patchUtils.parseLocator(pkg).sourceLocator.locatorHash` (meaningful only
when the reference is a patch reference), and `dependencies` is the list of
`descriptorHash`es of `pkg.dependencies.values()` in iteration order. -/
structure Package where
  name : String
  version : String
  reference : String
  locatorHash : Nat
  locatorStr : String
  devirtHash : Nat
  patchSourceHash : Nat
  dependencies : List Nat
deriving DecidableEq, Repr

/-- The slice of `Project` from `@yarnpkg/core` that the generator reads:
`storedPackages : Map<LocatorHash, Package>`,
`storedResolutions : Map<DescriptorHash, LocatorHash>`,
`storedChecksums : Map<LocatorHash, string>`, and the keys of
`storedBuildState`. -/
structure Project where
  storedPackages : List (Nat × Package)
  storedResolutions : List (Nat × Nat)
  storedChecksums : List (Nat × String)
  storedBuildState : List Nat
deriving DecidableEq, Repr

/-- A cache entry value: `{ filename, sha512 }`. -/
structure CacheEntry where
  filename : String
  sha512 : String
deriving DecidableEq, Repr

/-- `Map.get`: first binding of the key in an association list. -/
def mapGet {α β : Type} [DecidableEq α] (k : α) : List (α × β) → Option β
  | [] => none
  | kv :: rest => if kv.1 = k then some kv.2 else mapGet k rest

/-- `Map.set`: overwrite in place if the key is bound, else append
(JS `Map` keeps first-insertion order on overwrite). -/
def mapSet {α β : Type} [DecidableEq α] (m : List (α × β)) (k : α) (v : β) :
    List (α × β) :=
  if (mapGet k m).isSome then
    m.map (fun kv => if kv.1 = k then (k, v) else kv)
  else m ++ [(k, v)]

/-- `Set.add`: append if absent (JS `Set` keeps insertion order). -/
def setAdd (l : List String) (s : String) : List String :=
  if s ∈ l then l else l ++ [s]

/-- JS `String.prototype.startsWith`, as a character-level test. -/
def strStarts (s pre : String) : Bool := pre.data.isPrefixOf s.data

/-- JS string code-unit comparison (`<=`), as `Array.prototype.sort`
orders strings; character-level and kernel-reducible. -/
def strListLe : List Char → List Char → Bool
  | [], _ => true
  | _ :: _, [] => false
  | a :: as, b :: bs =>
    if a.toNat < b.toNat then true
    else if b.toNat < a.toNat then false
    else strListLe as bs

def strLe (a b : String) : Bool := strListLe a.data b.data

/-- `structUtils.isVirtualLocator`: the reference carries the
`virtual:` protocol. -/
def isVirtualLocator (p : Package) : Bool := strStarts p.reference "virtual:"

def locMissingMsg : String :=
  "Assertion failed: The locator should have been registered"

def descMissingMsg : String :=
  "Assertion failed: The descriptor should have been registered"

/-- First step of `collectTree`: record the locator string in `out` when it
is a cache-entry key. -/
def step0 (ce : List (String × CacheEntry)) (pkg : Package)
    (out : List String) : List String :=
  if (mapGet pkg.locatorStr ce).isSome then setAdd out pkg.locatorStr else out

/-- Devirtualization step of `collectTree`: when the locator is virtual,
look up the devirtualized package and recurse into it. -/
def virtStep (proj : Project)
    (rec : Package → List String → CtResult (List String))
    (pkg : Package) (out : List String) : CtResult (List String) :=
  if isVirtualLocator pkg then
    match mapGet pkg.devirtHash proj.storedPackages with
    | none => .err locMissingMsg
    | some devirtPkg => rec devirtPkg out
  else .ok out

/-- Patch-delink step of `collectTree`: when the reference is a patch
reference, look up the source package and recurse into it. -/
def patchStep (proj : Project)
    (rec : Package → List String → CtResult (List String))
    (pkg : Package) (out : List String) : CtResult (List String) :=
  if strStarts pkg.reference "patch:" then
    match mapGet pkg.patchSourceHash proj.storedPackages with
    | none => .err locMissingMsg
    | some depatchPkg => rec depatchPkg out
  else .ok out

/-- The dependency loop of `collectTree`: resolve every dependency edge
through `storedResolutions` and `storedPackages` and recurse. -/
def depsFold (step : Package → List String → CtResult (List String))
    (proj : Project) : List Nat → List String → CtResult (List String)
  | [], out => .ok out
  | d :: ds, out =>
    match mapGet d proj.storedResolutions with
    | none => .err descMissingMsg
    | some resolution =>
      match mapGet resolution proj.storedPackages with
      | none => .err locMissingMsg
      | some depPkg =>
        match step depPkg out with
        | .ok out2 => depsFold step proj ds out2
        | r => r

/-- `collectTree` (src/unnamed/part_000 lines 130-183), fueled.
The source recurses with no visited-set guard, so the fuel argument bounds
the recursion depth; `fuelOut` reports that the bound was hit while the JS
original would still be recursing. -/
def collectTree (proj : Project) (ce : List (String × CacheEntry)) :
    Nat → Package → List String → CtResult (List String)
  | 0 => fun _ _ => .fuelOut
  | fuel + 1 => fun pkg out =>
    match virtStep proj (collectTree proj ce fuel) pkg (step0 ce pkg out) with
    | .ok out2 =>
      match patchStep proj (collectTree proj ce fuel) pkg out2 with
      | .ok out3 => depsFold (collectTree proj ce fuel) proj pkg.dependencies out3
      | .err e => .err e
      | .fuelOut => .fuelOut
    | .err e => .err e
    | .fuelOut => .fuelOut

/-- Reachability through the three edge kinds `collectTree` follows:
devirtualization, patch delinking, and resolved dependency edges. -/
inductive Reaches (proj : Project) : Package → Package → Prop where
  | refl (p : Package) : Reaches proj p p
  | virt {p q r : Package} : isVirtualLocator p = true →
      mapGet p.devirtHash proj.storedPackages = some q →
      Reaches proj q r → Reaches proj p r
  | patch {p q r : Package} : strStarts p.reference "patch:" = true →
      mapGet p.patchSourceHash proj.storedPackages = some q →
      Reaches proj q r → Reaches proj p r
  | dep {p q r : Package} {d h : Nat} : d ∈ p.dependencies →
      mapGet d proj.storedResolutions = some h →
      mapGet h proj.storedPackages = some q →
      Reaches proj q r → Reaches proj p r

/-- Graph consistency at one node: the lookups `collectTree` performs at
this node all succeed. -/
def consistentAt (proj : Project) (p : Package) : Prop :=
  (isVirtualLocator p = true →
    (mapGet p.devirtHash proj.storedPackages).isSome) ∧
  (strStarts p.reference "patch:" = true →
    (mapGet p.patchSourceHash proj.storedPackages).isSome) ∧
  ∀ d ∈ p.dependencies, ∃ h, mapGet d proj.storedResolutions = some h ∧
    (mapGet h proj.storedPackages).isSome

/-- JS `String.prototype.startsWith` as a Prop, for statements. -/
def strStartsP (s pre : String) : Prop := strStarts s pre = true

/-- Character-level splitter on a single separator character; agrees with
`String.splitOn` for one-character separators and is kernel-reducible. -/
def splitChAux (sep : Char) : List Char → List Char → List String
  | [], acc => [String.mk acc.reverse]
  | c :: rest, acc =>
    if c = sep then String.mk acc.reverse :: splitChAux sep rest []
    else splitChAux sep rest (c :: acc)

def splitCh (sep : Char) (s : String) : List String := splitChAux sep s.data []

/-- `checksum.split("/").pop()`: the segment after the last slash. -/
def lastSlashSeg (s : String) : String := (splitCh '/' s).getLastD ""

/-- Join a list of strings with a separator (as `Array.prototype.join`). -/
def joinSep (sep : String) : List String → String
  | [] => ""
  | [x] => x
  | x :: y :: rest => x ++ sep ++ joinSep sep (y :: rest)

/-- Replace every occurrence of `pat` (non-empty) in a character list,
scanning left to right and continuing after each replacement, as JS
global string replacement does. The fuel argument (instantiated with the
list length) makes the recursion structural; each step consumes at least
one character, so the fuel never runs out when it starts at the length. -/
def replCharsF (pat repl : List Char) : Nat → List Char → List Char
  | 0, s => s
  | fuel + 1, s =>
    match s with
    | [] => []
    | c :: rest =>
      if pat ≠ [] ∧ pat.isPrefixOf (c :: rest) then
        repl ++ replCharsF pat repl fuel (List.drop pat.length (c :: rest))
      else c :: replCharsF pat repl fuel rest

/-- Replace all occurrences of `pat` in `s` by `repl` (no occurrence when
`pat` is empty, as in JS global replacement). -/
def strReplace (s pat repl : String) : String :=
  if pat.data = [] then s
  else String.mk (replCharsF pat.data repl.data s.data.length s.data)

/-- Replace only the first occurrence of `pat`, as JS
`String.prototype.replace` with a string pattern does. -/
def replFirstChars (pat repl : List Char) : List Char → List Char
  | [] => []
  | c :: rest =>
    if pat ≠ [] ∧ pat.isPrefixOf (c :: rest) then
      repl ++ List.drop pat.length (c :: rest)
    else c :: replFirstChars pat repl rest

def replaceFirst (s pat repl : String) : String :=
  String.mk (replFirstChars pat.data repl.data s.data)

/-- `sha512.slice(0, n)`. -/
def strTake (s : String) (n : Nat) : String := String.mk (s.data.take n)

/-- Modelled from the spec: `textUtils.json` (a JSON string literal, i.e.
`JSON.stringify` applied to a string) is not under `src/`. Escapes of the
common characters; other characters pass through. -/
def jsonChar (c : Char) : String :=
  if c = '"' then "\\\""
  else if c = '\\' then "\\\\"
  else if c = '\n' then "\\n"
  else if c = '\t' then "\\t"
  else if c = '\r' then "\\r"
  else String.singleton c

/-- Modelled from the spec: JSON string literal rendering. -/
def json (s : String) : String :=
  "\"" ++ String.join (s.data.map jsonChar) ++ "\""

/-- Modelled from the spec: `textUtils.upperCamelize` is not under `src/`;
it turns a package name into an UpperCamelCase identifier fragment
(used only inside generated text). -/
def upperCamelize (s : String) : String :=
  String.join ((splitCh '-' s).map (fun w =>
    match w.data with
    | [] => ""
    | c :: cs => String.mk (c.toUpper :: cs)))

/-- Modelled from the spec: `textUtils.indent` is not under `src/`;
prefixes every line of the text. -/
def indent (pre text : String) : String :=
  joinSep "\n" ((splitCh '\n' text).map (fun l => pre ++ l))

/-- A conditional flag of the template renderer; a name that is not bound
behaves as false (a falsy JS lookup). -/
def lookupFlag (flags : List (String × Bool)) (n : String) : Bool :=
  (mapGet n flags).getD false

/-- Modelled from the spec: the line filter of `textUtils.renderTmpl` is
not under `src/`. Per the spec the rendered output keeps a conditional
block only when its flag is set; `#@@ IF name` and `#@@ ENDIF name` marker
lines are never emitted. -/
def dropConds (flags : List (String × Bool)) : List String → Bool → List String
  | [], _ => []
  | line :: rest, skipping =>
    if strStarts line "#@@ IF " then
      dropConds flags rest (!(lookupFlag flags (String.mk (line.data.drop 7))))
    else if strStarts line "#@@ ENDIF" then dropConds flags rest false
    else if skipping then dropConds flags rest true
    else line :: dropConds flags rest false

/-- Modelled from the spec: substitution of one `@@NAME@@` slot
(`textUtils.renderTmpl` is not under `src/`). -/
def substLine (vars : List (String × String)) (line : String) : String :=
  vars.foldl (fun l kv => strReplace l ("@@" ++ kv.1 ++ "@@") kv.2) line

/-- Modelled from the spec: `textUtils.renderTmpl` is not under `src/`.
It processes the template line by line: conditional blocks are kept or
dropped according to their boolean variable, and `@@NAME@@` slots are
substituted from the string variables. -/
def renderTmpl (tmpl : String) (strVars : List (String × String))
    (flagVars : List (String × Bool)) : String :=
  joinSep "\n" ((dropConds flagVars (splitCh '\n' tmpl) false).map (substLine strVars))

/-- Spec-side description of a template with every conditional block
omitted entirely (markers included): used to state that the rendered
output of a run without injection steps contains no trace of the
conditional injection-support block. -/
def dropRegionAux : List String → Bool → List String
  | [], _ => []
  | line :: rest, skipping =>
    if strStarts line "#@@ IF " then dropRegionAux rest true
    else if strStarts line "#@@ ENDIF" then dropRegionAux rest false
    else if skipping then dropRegionAux rest true
    else line :: dropRegionAux rest false

def dropRegion (ls : List String) : List String := dropRegionAux ls false

/-- An isolated-build target as pushed at src/unnamed/part_000 lines
235-251: the devirtualized locator string it is keyed by, the (possibly
virtual) package's name and version, and the sorted locator closure. -/
structure Target where
  buildLocatorStr : String
  pname : String
  version : String
  locators : List String
deriving DecidableEq, Repr

/-- An injection step as pushed at src/unnamed/part_000 lines 256-262:
the occurrence's own locator string, the devirtualized locator string its
`isolated.<key>` property refers to, and the install location. -/
structure Injection where
  pkgName : String
  injectLocatorStr : String
  buildLocatorStr : String
  installLocation : String
deriving DecidableEq, Repr

/-- The accumulator of the isolation-planner loop (src/unnamed/part_000
lines 123-125 and 185-263). `targets` and `injections` record, in
structured form, the arguments of each push into `isolatedCode` and
`isolatedIntegration`. -/
structure PlanState where
  isolatedPackages : List Package
  targets : List Target
  injections : List Injection
  isolatedCode : List String
  isolatedIntegration : List String
deriving DecidableEq, Repr

def emptyPlan : PlanState := ⟨[], [], [], [], []⟩

/-- Inputs of the generator besides the resolved graph: the configuration
values it reads and the external collaborators (path utilities from
`@yarnpkg/fslib`, cache and hashing services from `@yarnpkg/core`, the
filesystem, the `nix-store` tool), modelled as oracle functions. -/
structure Env where
  cwd : String
  tempDir : String
  yarnPathAbs : String
  cacheFolderAbs : String
  sources : List String
  nixExprPath : String
  lockfileFilename : String
  isolatedBuilds : List String
  nodeLinker : String
  pnpUnpluggedFolder : String
  generateDefaultNix : Bool
  enableNixPreload : Bool
  cacheFiles : List String
  cacheCwd : String
  topLevelIdent : Option String
  projectExprTmpl : String
  defaultExprTmpl : String
  preloadTempDir : String
  relative : String → String → String
  dirname : String → String
  basename : String → String
  join : String → String → String
  existsSync : String → Bool
  getLocatorPath : Package → Option String → Option String
  checksumFile : String → String
  slugifyLocator : Package → String
  identVendorPath : Package → String
  sanitizeName : String → String
  storePath : String → String → String
  nixStoreAdd : List String → Except String Unit

/-- The cache-entry indexer (src/unnamed/part_000 lines 92-110): for each
stored package, derive its cache path (`cache.getLocatorPath`), skip it if
the path is null or the filename is not in the cache directory listing,
and otherwise record `{filename, sha512}` under the locator string. -/
def cacheStep (env : Env) (proj : Project)
    (m : List (String × CacheEntry)) (pkg : Package) :
    List (String × CacheEntry) :=
  match env.getLocatorPath pkg (mapGet pkg.locatorHash proj.storedChecksums) with
  | none => m
  | some cachePath =>
    if env.basename cachePath ∈ env.cacheFiles then
      mapSet m pkg.locatorStr
        ⟨env.basename cachePath,
         match mapGet pkg.locatorHash proj.storedChecksums with
         | some checksum => lastSlashSeg checksum
         | none => env.checksumFile cachePath⟩
    else m

def cacheEntriesOf (env : Env) (proj : Project) : List (String × CacheEntry) :=
  (proj.storedPackages.map Prod.snd).foldl (cacheStep env proj) []

/-- The cache-entries text block (src/unnamed/part_000 lines 112-119). -/
def cacheEntriesCodeOf (ce : List (String × CacheEntry)) : String :=
  (ce.foldl (fun acc ent =>
    acc ++ json ent.1 ++ " = \x7b " ++
      joinSep " " ["filename = " ++ json ent.2.filename ++ ";",
        "sha512 = " ++ json ent.2.sha512 ++ ";"] ++ " \x7d;\n")
    "cacheEntries = \x7b\n") ++ "\x7d;"

/-- The pnp-case install location (src/unnamed/part_000 lines 199-209):
relative path from the project root to the unplugged vendor directory. -/
def installLocationOf (env : Env) (pkg : Package) : String :=
  env.relative env.cwd
    (env.join (env.join env.pnpUnpluggedFolder (env.slugifyLocator pkg))
      (env.identVendorPath pkg))

/-- The `isolated.<key> = ...` code line (src/unnamed/part_000 lines
244-250). -/
def mkIsolatedCodeStr (isolatedProp overrideArg pname version
    locatorsStr : String) : String :=
  isolatedProp ++ " = optionalOverride (args." ++ overrideArg ++
    " or null) (mkIsolatedBuild \x7b " ++
    joinSep " "
      ["pname = " ++ json pname ++ ";",
       "version = " ++ json version ++ ";",
       "locators = [\n" ++ locatorsStr ++ "];"] ++ " \x7d);"

def addIntegration (st : PlanState) (ls : List String) : PlanState :=
  ⟨st.isolatedPackages, st.targets, st.injections, st.isolatedCode,
   st.isolatedIntegration ++ ls⟩

/-- The per-occurrence integration push (src/unnamed/part_000 lines
256-262), together with its structured `Injection` record. -/
def pushInjection (st : PlanState) (pkgName injectLocatorStr buildLocatorStr
    isolatedProp installLocation : String) : PlanState :=
  ⟨st.isolatedPackages, st.targets,
   st.injections ++ [⟨pkgName, injectLocatorStr, buildLocatorStr,
     installLocation⟩],
   st.isolatedCode,
   st.isolatedIntegration ++
     ["echo \x27injecting build for " ++ pkgName ++ "\x27",
      "yarn nixify inject-build \\",
      "  " ++ json injectLocatorStr ++ " \\",
      "  $\x7b" ++ isolatedProp ++ "\x7d \\",
      "  " ++ json installLocation]⟩

/-- The dedup-guarded target push (src/unnamed/part_000 lines 235-251),
together with its structured `Target` record. -/
def pushTarget (st : PlanState) (devirtPkg : Package) (t : Target)
    (code : String) : PlanState :=
  ⟨st.isolatedPackages ++ [devirtPkg], st.targets ++ [t], st.injections,
   st.isolatedCode ++ [code], st.isolatedIntegration⟩

/-- One iteration of the isolation-planner loop (src/unnamed/part_000
lines 185-263) for one `storedBuildState` key. -/
def planStep (env : Env) (proj : Project) (ce : List (String × CacheEntry))
    (fuel : Nat) (st : PlanState) (h : Nat) : CtResult PlanState :=
  match mapGet h proj.storedPackages with
  | none => .err locMissingMsg
  | some pkg =>
    if pkg.name ∈ env.isolatedBuilds then
      if env.nodeLinker = "pnp" then
        match (if isVirtualLocator pkg then
                 mapGet pkg.devirtHash proj.storedPackages
               else some pkg) with
        | none => .err locMissingMsg
        | some devirtPkg =>
          let buildLocatorStr := devirtPkg.locatorStr
          let isolatedProp := "isolated." ++ json buildLocatorStr
          let afterTarget : CtResult PlanState :=
            if devirtPkg ∈ st.isolatedPackages then .ok st
            else
              match collectTree proj ce fuel pkg [] with
              | .fuelOut => .fuelOut
              | .err e => .err e
              | .ok treeSet =>
                let locatorsSorted :=
                  List.insertionSort (fun a b => strLe a b = true) treeSet
                let locatorsStr :=
                  String.join (locatorsSorted.map (fun v => json v ++ "\n"))
                .ok (pushTarget st devirtPkg
                  ⟨buildLocatorStr, pkg.name, pkg.version, locatorsSorted⟩
                  (mkIsolatedCodeStr isolatedProp
                    ("override" ++ upperCamelize pkg.name ++ "Attrs")
                    pkg.name pkg.version locatorsStr))
          match afterTarget with
          | .ok st1 =>
            let st2 := if st1.isolatedIntegration.isEmpty then
                addIntegration st1 ["# Copy in isolated builds."] else st1
            .ok (pushInjection st2 pkg.name pkg.locatorStr buildLocatorStr
              isolatedProp (installLocationOf env pkg))
          | r => r
      else
        .err ("The nodeLinker " ++ env.nodeLinker ++
          " is not supported for isolated Nix builds")
    else .ok st

/-- The isolation-planner loop over `storedBuildState` keys. -/
def planLoop (env : Env) (proj : Project) (ce : List (String × CacheEntry))
    (fuel : Nat) : List Nat → PlanState → CtResult PlanState
  | [], st => .ok st
  | h :: hs, st =>
    match planStep env proj ce fuel st h with
    | .ok st2 => planLoop env proj ce fuel hs st2
    | r => r

/-- The externally observable effects of one completed generator run:
report lines by severity, file writes, file copies (preload staging) and
executed `nix-store` invocations. -/
structure GenOut where
  infos : List String
  warnings : List String
  writes : List (String × String)
  copies : List (String × String)
  execs : List (List String)
deriving DecidableEq, Repr

/-- `toPreload.splice(0, 100)` batching (src/unnamed/part_000 lines
327-339). -/
def chunk100 {α : Type} : List α → List (List α)
  | [] => []
  | a :: rest => ((a :: rest).take 100) :: chunk100 ((a :: rest).drop 100)
termination_by l => l.length
decreasing_by
  simp only [List.length_drop, List.length_cons]
  omega

/-- Run the `nix-store --add-fixed` batches; a failure with code `ENOENT`
stops the loop silently (no Nix installation), any other failure is
rethrown (src/unnamed/part_000 lines 326-351). Returns the attempted
invocations and whether the loop completed. -/
def runBatches (env : Env) : List (List String) → CtResult (List (List String) × Bool)
  | [] => .ok ([], true)
  | b :: bs =>
    match env.nixStoreAdd ("--add-fixed" :: "sha512" :: b) with
    | .ok _ =>
      match runBatches env bs with
      | .ok (es, c) => .ok (("--add-fixed" :: "sha512" :: b) :: es, c)
      | r => r
    | .error code =>
      if code = "ENOENT" then .ok ([("--add-fixed" :: "sha512" :: b)], false)
      else .err code

/-- The store-preload step (src/unnamed/part_000 lines 296-353): stage
every cache entry whose fixed-output store path does not exist into a
hash-prefixed staging subdirectory, then import in batches of 100.
Returns (copies, executed invocations, info lines). -/
def preloadRun (env : Env) (ce : List (String × CacheEntry)) :
    CtResult (List (String × String) × List (List String) × List String) :=
  let toPreload := ce.filterMap (fun ent =>
    let name := env.sanitizeName ent.1
    if env.existsSync (env.storePath name ent.2.sha512) then none
    else
      some (env.join env.cacheCwd ent.2.filename,
        env.join (env.join env.preloadTempDir (strTake ent.2.sha512 7)) name))
  let dsts := toPreload.map Prod.snd
  match runBatches env (chunk100 dsts) with
  | .ok (es, completed) =>
    .ok (toPreload, es,
      if dsts.length ≠ 0 ∧ completed then
        ["Preloaded " ++ toString dsts.length ++ " packages into the Nix store"]
      else [])
  | .err e => .err e
  | .fuelOut => .fuelOut

/-- The relative Yarn path with its outside-the-project fallback
(src/unnamed/part_000 lines 45-53). -/
def yarnPathOf (env : Env) : String :=
  if strStarts (env.relative env.cwd env.yarnPathAbs) "../" then env.yarnPathAbs
  else env.relative env.cwd env.yarnPathAbs

/-- The relative cache folder with its outside-the-project fallback
(src/unnamed/part_000 lines 55-63). -/
def cacheFolderOf (env : Env) : String :=
  if strStarts (env.relative env.cwd env.cacheFolderAbs) "../" then
    env.cacheFolderAbs
  else env.relative env.cwd env.cacheFolderAbs

/-- The reachability warnings (src/unnamed/part_000 lines 44-75). -/
def warningsOf (env : Env) : List String :=
  (if strStarts (env.relative env.cwd env.yarnPathAbs) "../" then
    ["The Yarn path " ++ env.yarnPathAbs ++
      " is outside the project - it may not be reachable by the Nix build"]
  else []) ++
  (if strStarts (env.relative env.cwd env.cacheFolderAbs) "../" then
    ["The cache folder " ++ env.cacheFolderAbs ++
      " is outside the project - it may not be reachable by the Nix build"]
  else []) ++
  env.sources.filterMap (fun source =>
    if strStarts source "<" then none
    else if strStarts (env.relative env.cwd source) "../" then
      some ("The config file " ++ source ++
        " is outside the project - it may not be reachable by the Nix build")
    else none)

/-- The trailing `echo` pushed after the loop when any integration line
exists (src/unnamed/part_000 lines 264-266). -/
def stAfterLoop (st0 : PlanState) : PlanState :=
  if st0.isolatedIntegration.length > 0 then
    addIntegration st0 ["echo \x27running yarn install\x27"]
  else st0

/-- The rendered project expression (src/unnamed/part_000 lines 268-280). -/
def projectExprOf (env : Env) (ce : List (String × CacheEntry))
    (st : PlanState) : String :=
  renderTmpl env.projectExprTmpl
    [("PROJECT_NAME", json (env.topLevelIdent.getD "workspace")),
     ("YARN_PATH", env.relative (env.dirname env.nixExprPath) (yarnPathOf env)),
     ("LOCKFILE", env.relative (env.dirname env.nixExprPath)
       env.lockfileFilename),
     ("CACHE_FOLDER", json (cacheFolderOf env)),
     ("CACHE_ENTRIES", cacheEntriesCodeOf ce),
     ("ISOLATED", joinSep "\n" st.isolatedCode),
     ("ISOLATED_INTEGRATION",
       indent "      " (joinSep "\n" st.isolatedIntegration))]
    [("NEED_ISOLATED_BUILD_SUPPRORT",
      decide (st.isolatedIntegration.length > 0))]

/-- The one-time wrapper write and its info line (src/unnamed/part_000
lines 283-294): written only when `generateDefaultNix` is set and neither
`default.nix` nor `flake.nix` exists. -/
def wrapperOf (env : Env) : List (String × String) × List String :=
  if env.generateDefaultNix then
    if !env.existsSync (env.join env.cwd "default.nix") &&
        !env.existsSync (env.join env.cwd "flake.nix") then
      ([(env.join env.cwd "default.nix", env.defaultExprTmpl)],
       ["A minimal default.nix was created. You may want to customize it."])
    else ([], [])
  else ([], [])

/-- The generator that runs after `yarn install` (src/unnamed/part_000
lines 26-354), as a pure function from its environment and resolved graph
to its effects; `fuel` bounds the recursion depth of `collectTree`. -/
def generator (env : Env) (proj : Project) (fuel : Nat) : CtResult GenOut :=
  if strStarts env.cwd env.tempDir then
    .ok ⟨["Skipping Nixify, because " ++ env.cwd ++
      " appears to be a temporary directory"], [], [], [], []⟩
  else
    let ce := cacheEntriesOf env proj
    match planLoop env proj ce fuel proj.storedBuildState emptyPlan with
    | .err e => .err e
    | .fuelOut => .fuelOut
    | .ok st0 =>
      match (if env.enableNixPreload && env.existsSync "/nix/store"
             then preloadRun env ce else .ok ([], [], [])) with
      | .err e => .err e
      | .fuelOut => .fuelOut
      | .ok (copies, execs, preloadInfos) =>
        .ok ⟨(wrapperOf env).2 ++ preloadInfos, warningsOf env,
             (env.nixExprPath, projectExprOf env ce (stAfterLoop st0)) ::
               (wrapperOf env).1,
             copies, execs⟩

/-- The reports and writes of one `yarn nixify` command run
(src/src/index.ts `generate`). -/
structure CmdOut where
  errors : List String
  warnings : List String
  infos : List String
  writes : List (String × String)
deriving DecidableEq, Repr

/-- Inputs of the command-layer generator `generate` (src/src/index.ts):
configuration values plus oracles for the path utilities, the filesystem
and the `nix-hash` invocation. -/
structure EnvCmd where
  cwd : String
  yarnPathAbs : String
  lockfileFilename : String
  nodeLinker : String
  cacheFolder : String
  sources : List String
  pnpPath : String
  topLevelIdent : Option String
  projectExprTmpl : String
  defaultExprTmpl : String
  relative : String → String → String
  dirname : String → String
  join : String → String → String
  existsSync : String → Bool
  readdirSync : String → List String
  nixHash : Except String String

def onlyPnpMsg : String :=
  "Only \x27pnp\x27 is currently supported for the \x27nodeLinker\x27 setting."

/-- The `while (dir !== ".")` parent-directory loop of src/src/index.ts
lines 95-99, fueled because the `dirname` oracle is arbitrary. -/
def dirLoop (env : EnvCmd) : Nat → String → List String → CtResult (List String)
  | 0, _, _ => .fuelOut
  | fuel + 1, dir, acc =>
    if dir = "." then .ok acc
    else dirLoop env fuel (env.dirname dir) (setAdd acc ("directory:" ++ dir))

/-- The `filterSource` entry loop of src/src/index.ts lines 79-100:
unreachable paths produce a warning and are skipped; reachable paths add a
`regular:` entry and `directory:` entries for all parent directories. -/
def closureEntriesFold (env : EnvCmd) (fuel : Nat) :
    List String → List String → List String → CtResult (List String × List String)
  | [], entries, warns => .ok (entries, warns)
  | inputPath :: rest, entries, warns =>
    let relativePath := env.relative env.cwd inputPath
    if strStarts relativePath ".." then
      closureEntriesFold env fuel rest entries (warns ++
        ["The path " ++ inputPath ++
          " was ignored, because it cannot be reached by the Nix build"])
    else
      match dirLoop env fuel (env.dirname relativePath)
          (setAdd entries ("regular:" ++ relativePath)) with
      | .ok entries2 => closureEntriesFold env fuel rest entries2 warns
      | .err e => .err e
      | .fuelOut => .fuelOut

/-- The command-layer generator `generate` (src/src/index.ts lines 22-137)
as a pure function to its reports and writes. -/
def generateCmd (env : EnvCmd) (fuel : Nat) : CtResult CmdOut :=
  if env.nodeLinker ≠ "pnp" then
    .ok ⟨[onlyPnpMsg], [], [], []⟩
  else
    let yarnPath := env.relative env.cwd env.yarnPathAbs
    if strStarts yarnPath "." then
      .ok ⟨["The Yarn path " ++ env.yarnPathAbs ++
        " is outside the project directory - it cannot be reached by the Nix build"],
        [], [], []⟩
    else if !env.existsSync (env.join env.cwd env.lockfileFilename) ||
        !env.existsSync env.pnpPath then
      .ok ⟨["The project in " ++ env.cwd ++
        "/package.json doesn\x27t seem to have been installed - running an install there might help"],
        [], [], []⟩
    else
      let yarnClosureInput := (env.sources.filter
          (fun s => !strStarts s "<")).foldl setAdd
        (setAdd (setAdd (setAdd [] "package.json") env.lockfileFilename)
          yarnPath)
      let pluginsDir := env.join env.cwd ".yarn/plugins"
      let yarnClosureInput2 :=
        if env.existsSync pluginsDir then
          (env.readdirSync pluginsDir).foldl
            (fun acc f => setAdd acc (env.join pluginsDir f)) yarnClosureInput
        else yarnClosureInput
      match closureEntriesFold env fuel yarnClosureInput2 [] [] with
      | .err e => .err e
      | .fuelOut => .fuelOut
      | .ok (yarnClosureEntries, warns) =>
        match env.nixHash with
        | .error e => .err e
        | .ok stdout =>
          let cacheHash := stdout.trim
          let projectName := env.topLevelIdent.getD "workspace"
          let projectExpr :=
            replaceFirst (replaceFirst (replaceFirst (replaceFirst
              env.projectExprTmpl
              "@@PROJECT_NAME@@" (json projectName))
              "@@OFFLINE_CACHE_HASH@@" (json cacheHash))
              "@@YARN_PATH@@" (json yarnPath))
              "@@YARN_CLOSURE_ENTRIES@@"
              ("[ " ++ joinSep " " (yarnClosureEntries.map json) ++ " ]")
          let projectExprPath := env.join env.cwd "yarn-project.nix"
          let defaultExprPath := env.join env.cwd "default.nix"
          if !env.existsSync defaultExprPath then
            .ok ⟨[], warns,
              ["Wrote: " ++ projectExprPath, "Wrote: " ++ defaultExprPath],
              [(projectExprPath, projectExpr),
               (defaultExprPath, env.defaultExprTmpl)]⟩
          else
            .ok ⟨[], warns, ["Wrote: " ++ projectExprPath],
              [(projectExprPath, projectExpr)]⟩

/-- Spec-side view: the occurrences among a list of build-state keys whose
package name matches the isolation allow-list. -/
def matchedOver (env : Env) (proj : Project) (hs : List Nat) : List Package :=
  hs.filterMap (fun h =>
    match mapGet h proj.storedPackages with
    | some pkg => if pkg.name ∈ env.isolatedBuilds then some pkg else none
    | none => none)

/-- Spec-side view: the installed occurrences (entries of
`storedBuildState`) whose package name matches the isolation allow-list. -/
def matchedOccs (env : Env) (proj : Project) : List Package :=
  matchedOver env proj proj.storedBuildState

/-- Spec-side view: the canonical (devirtualized) package of an
occurrence. -/
def devirtOf (proj : Project) (pkg : Package) : Option Package :=
  if isVirtualLocator pkg then mapGet pkg.devirtHash proj.storedPackages
  else some pkg

/-- Spec-side view: the injection record one occurrence gives rise to. -/
def occInj (env : Env) (proj : Project) (pkg : Package) : Option Injection :=
  (devirtOf proj pkg).map (fun dv =>
    ⟨pkg.name, pkg.locatorStr, dv.locatorStr, installLocationOf env pkg⟩)

/-- Well-formedness of the stored package table: locator-hash keys are
unique, and distinct stored packages have distinct locator strings (true
of a real Yarn project, where the locator hash is a hash of the
stringified locator). -/
def wfProject (proj : Project) : Prop :=
  (proj.storedPackages.map Prod.fst).Nodup ∧
  ((proj.storedPackages.map Prod.snd).map Package.locatorStr).Nodup

/-- A two-package dependency cycle: `a` depends on `b` and `b` depends on
`a`; both have cached content. -/
def cycA : Package := ⟨"a", "1.0.0", "npm:1.0.0", 0, "a@npm:1.0.0", 0, 0, [10]⟩

def cycB : Package := ⟨"b", "1.0.0", "npm:1.0.0", 1, "b@npm:1.0.0", 0, 0, [11]⟩

def cycProj : Project := ⟨[(0, cycA), (1, cycB)], [(10, 1), (11, 0)], [], []⟩

def cycCE : List (String × CacheEntry) :=
  [("a@npm:1.0.0", ⟨"a-npm-1.0.0.zip", "aa"⟩),
   ("b@npm:1.0.0", ⟨"b-npm-1.0.0.zip", "bb"⟩)]

/-- A two-package acyclic graph: `r` depends on `a`; both cached. -/
def demoA : Package := ⟨"a", "1.0.0", "npm:1.0.0", 1, "a@npm:1.0.0", 0, 0, []⟩

def demoR : Package :=
  ⟨"r", "1.0.0", "npm:1.0.0", 0, "r@npm:1.0.0", 0, 0, [20]⟩

def demoProj : Project := ⟨[(0, demoR), (1, demoA)], [(20, 1)], [], []⟩

def demoCE : List (String × CacheEntry) :=
  [("r@npm:1.0.0", ⟨"r-npm-1.0.0.zip", "rr"⟩),
   ("a@npm:1.0.0", ⟨"a-npm-1.0.0.zip", "aa"⟩)]

/-- A concrete environment with trivial oracles, shared by the concrete
runs below. -/
def baseEnv : Env :=
  { cwd := "/proj"
    tempDir := "/tmp"
    yarnPathAbs := ".yarn/releases/yarn.cjs"
    cacheFolderAbs := ".yarn/cache"
    sources := []
    nixExprPath := "yarn-project.nix"
    lockfileFilename := "yarn.lock"
    isolatedBuilds := []
    nodeLinker := "pnp"
    pnpUnpluggedFolder := ".yarn/unplugged"
    generateDefaultNix := false
    enableNixPreload := false
    cacheFiles := []
    cacheCwd := ".yarn/cache"
    topLevelIdent := some "proj"
    projectExprTmpl := "tmpl"
    defaultExprTmpl := "default-tmpl"
    preloadTempDir := "/tmp/stage"
    relative := fun _ b => b
    dirname := fun _ => "."
    basename := fun s => s
    join := fun a b => a ++ "/" ++ b
    existsSync := fun _ => false
    getLocatorPath := fun _ _ => none
    checksumFile := fun _ => ""
    slugifyLocator := fun p => p.name
    identVendorPath := fun p => "node_modules/" ++ p.name
    sanitizeName := fun s => s
    storePath := fun n _ => "/nix/store/" ++ n
    nixStoreAdd := fun _ => .ok () }

/-- The empty resolved graph. -/
def emptyProj : Project := ⟨[], [], [], []⟩

/-- A non-pnp linker with no allow-listed installed package: the
counterexample environment of the linker-mode claim. -/
def envNodeModules : Env := { baseEnv with nodeLinker := "node-modules" }

/-- The plain package `native-lib`, and two virtual instances of it under
different peer-dependency contexts; both virtual instances are installed
(in `storedBuildState`). -/
def isoP : Package :=
  ⟨"native-lib", "1.0.0", "npm:1.0.0", 5, "native-lib@npm:1.0.0", 0, 0, []⟩

def isoV1 : Package :=
  ⟨"native-lib", "1.0.0", "virtual:aaa#npm:1.0.0", 100,
   "native-lib@virtual:aaa#npm:1.0.0", 5, 0, []⟩

def isoV2 : Package :=
  ⟨"native-lib", "1.0.0", "virtual:bbb#npm:1.0.0", 101,
   "native-lib@virtual:bbb#npm:1.0.0", 5, 0, []⟩

def isoProj : Project :=
  ⟨[(5, isoP), (100, isoV1), (101, isoV2)], [], [], [100, 101]⟩

/-- Environment whose allow-list matches `native-lib` and whose cache
oracle gives every package on-disk content. -/
def envIso : Env :=
  { baseEnv with
    isolatedBuilds := ["native-lib"]
    getLocatorPath := fun p _ => some (p.locatorStr ++ ".zip")
    cacheFiles := ["native-lib@npm:1.0.0.zip",
      "native-lib@virtual:aaa#npm:1.0.0.zip",
      "native-lib@virtual:bbb#npm:1.0.0.zip"] }

/-- A run whose project directory lies inside the OS temporary
directory. -/
def envTmp : Env := { baseEnv with cwd := "/tmp/xfs-1234/dlx-5678" }

/-- A template with a conditional injection-support block, for concrete
rendering runs. -/
def envCond : Env :=
  { envIso with
    projectExprTmpl :=
      "head @@CACHE_ENTRIES@@\n#@@ IF NEED_ISOLATED_BUILD_SUPPRORT\nsecret @@ISOLATED@@\n#@@ ENDIF NEED_ISOLATED_BUILD_SUPPRORT\ntail @@ISOLATED_INTEGRATION@@" }

/-- `envCond` restricted to an empty allow-list: no package matches. -/
def envCondNoIso : Env := { envCond with isolatedBuilds := [] }

/-- An environment in which the wrapper would be written: the
`generateDefaultNix` setting is on and no wrapper or flake exists. -/
def envWrap : Env := { baseEnv with generateDefaultNix := true }

/-- The planner state of the concrete run over `isoProj` with `envIso`
(two virtual occurrences of one devirtualized identity). -/
def isoSt : PlanState :=
  ⟨[isoP],
   [⟨"native-lib@npm:1.0.0", "native-lib", "1.0.0",
     ["native-lib@npm:1.0.0", "native-lib@virtual:aaa#npm:1.0.0"]⟩],
   [⟨"native-lib", "native-lib@virtual:aaa#npm:1.0.0", "native-lib@npm:1.0.0",
     ".yarn/unplugged/native-lib/node_modules/native-lib"⟩,
    ⟨"native-lib", "native-lib@virtual:bbb#npm:1.0.0", "native-lib@npm:1.0.0",
     ".yarn/unplugged/native-lib/node_modules/native-lib"⟩],
   ["isolated.\"native-lib@npm:1.0.0\" = optionalOverride (args.overrideNativeLibAttrs or null) (mkIsolatedBuild \x7b pname = \"native-lib\"; version = \"1.0.0\"; locators = [\n\"native-lib@npm:1.0.0\"\n\"native-lib@virtual:aaa#npm:1.0.0\"\n]; \x7d);"],
   ["# Copy in isolated builds.",
    "echo \x27injecting build for native-lib\x27",
    "yarn nixify inject-build \\",
    "  \"native-lib@virtual:aaa#npm:1.0.0\" \\",
    "  $\x7bisolated.\"native-lib@npm:1.0.0\"\x7d \\",
    "  \".yarn/unplugged/native-lib/node_modules/native-lib\"",
    "echo \x27injecting build for native-lib\x27",
    "yarn nixify inject-build \\",
    "  \"native-lib@virtual:bbb#npm:1.0.0\" \\",
    "  $\x7bisolated.\"native-lib@npm:1.0.0\"\x7d \\",
    "  \".yarn/unplugged/native-lib/node_modules/native-lib\""]⟩

/-- `envIso` with a non-pnp linker: a matched occurrence then hits the
unsupported-linker error. -/
def envIsoNM : Env := { envIso with nodeLinker := "node-modules" }

/-- A command-layer environment with a non-pnp linker. -/
def envCmdNM : EnvCmd :=
  { cwd := "/proj"
    yarnPathAbs := ".yarn/releases/yarn.cjs"
    lockfileFilename := "yarn.lock"
    nodeLinker := "node-modules"
    cacheFolder := ".yarn/cache"
    sources := []
    pnpPath := "/proj/.pnp.cjs"
    topLevelIdent := some "proj"
    projectExprTmpl := "tmpl"
    defaultExprTmpl := "default-tmpl"
    relative := fun _ b => b
    dirname := fun _ => "."
    join := fun a b => a ++ "/" ++ b
    existsSync := fun _ => true
    readdirSync := fun _ => []
    nixHash := .ok "hash" }

/-- Invariant of the isolation-planner loop: every deduplicated package is
a stored package; the emitted targets correspond one-to-one, in order, to
the deduplicated packages; the deduplicated list has no repeats; every
injection step refers to an emitted target; integration lines exist only
when an injection step exists; and every emitted target's locator closure
is sorted. -/
def PlanInv (proj : Project) (st : PlanState) : Prop :=
  (∀ p ∈ st.isolatedPackages, p ∈ proj.storedPackages.map Prod.snd) ∧
  st.targets.map Target.buildLocatorStr =
    st.isolatedPackages.map Package.locatorStr ∧
  st.isolatedPackages.Nodup ∧
  (∀ i ∈ st.injections,
    i.buildLocatorStr ∈ st.targets.map Target.buildLocatorStr) ∧
  (st.injections = [] → st.isolatedIntegration = []) ∧
  (∀ t ∈ st.targets, List.Sorted (fun a b => strLe a b = true) t.locators)


theorem mem_setAdd {l : List String} {s s' : String} :
    s' ∈ setAdd l s ↔ s' ∈ l ∨ s' = s := by
  unfold setAdd
  split
  · constructor
    · exact fun h => Or.inl h
    · rintro (h | rfl)
      · exact h
      · assumption
  · simp [List.mem_append]

theorem setAdd_subset {l : List String} {s : String} : l ⊆ setAdd l s := by
  intro x hx
  exact mem_setAdd.2 (Or.inl hx)

theorem mem_setAdd_self {l : List String} {s : String} : s ∈ setAdd l s :=
  mem_setAdd.2 (Or.inr rfl)

theorem mapGet_mem {α β : Type} [DecidableEq α] {k : α} {v : β} :
    ∀ {l : List (α × β)}, mapGet k l = some v → (k, v) ∈ l := by
  intro l
  induction l with
  | nil => intro h; simp [mapGet] at h
  | cons kv rest ih =>
    intro h
    by_cases hk : kv.1 = k
    · simp [mapGet, hk] at h
      subst h
      simp [← hk]
    · simp [mapGet, hk] at h
      exact List.mem_cons_of_mem _ (ih h)

theorem step0_subset {ce : List (String × CacheEntry)} {pkg : Package}
    {out : List String} : out ⊆ step0 ce pkg out := by
  unfold step0
  split
  · exact setAdd_subset
  · exact fun _ h => h

theorem mem_step0 {ce : List (String × CacheEntry)} {pkg : Package}
    {out : List String} {s : String} (h : s ∈ step0 ce pkg out) :
    s ∈ out ∨ (s = pkg.locatorStr ∧ (mapGet pkg.locatorStr ce).isSome) := by
  unfold step0 at h
  split at h
  · rcases mem_setAdd.1 h with h' | h'
    · exact Or.inl h'
    · exact Or.inr ⟨h', by assumption⟩
  · exact Or.inl h

theorem mem_step0_self {ce : List (String × CacheEntry)} {pkg : Package}
    {out : List String} (h : (mapGet pkg.locatorStr ce).isSome) :
    pkg.locatorStr ∈ step0 ce pkg out := by
  unfold step0
  rw [if_pos h]
  exact mem_setAdd_self

theorem virtStep_mono {proj : Project}
    {rec : Package → List String → CtResult (List String)}
    (hrec : ∀ p o r, rec p o = .ok r → o ⊆ r) :
    ∀ {pkg out out2}, virtStep proj rec pkg out = .ok out2 → out ⊆ out2 := by
  intro pkg out out2 h
  unfold virtStep at h
  split at h
  · cases hm : mapGet pkg.devirtHash proj.storedPackages with
    | none => rw [hm] at h; simp at h
    | some dp => rw [hm] at h; exact hrec dp out out2 h
  · simp at h
    subst h
    exact fun _ hx => hx

theorem patchStep_mono {proj : Project}
    {rec : Package → List String → CtResult (List String)}
    (hrec : ∀ p o r, rec p o = .ok r → o ⊆ r) :
    ∀ {pkg out out2}, patchStep proj rec pkg out = .ok out2 → out ⊆ out2 := by
  intro pkg out out2 h
  unfold patchStep at h
  split at h
  · cases hm : mapGet pkg.patchSourceHash proj.storedPackages with
    | none => rw [hm] at h; simp at h
    | some dp => rw [hm] at h; exact hrec dp out out2 h
  · simp at h
    subst h
    exact fun _ hx => hx

theorem depsFold_mono {proj : Project}
    {step : Package → List String → CtResult (List String)}
    (hstep : ∀ p o r, step p o = .ok r → o ⊆ r) :
    ∀ {ds : List Nat} {out res}, depsFold step proj ds out = .ok res → out ⊆ res := by
  intro ds
  induction ds with
  | nil =>
    intro out res h
    simp only [depsFold] at h
    simp at h
    subst h
    exact fun _ hx => hx
  | cons d rest ih =>
    intro out res h
    simp only [depsFold] at h
    cases h1 : mapGet d proj.storedResolutions with
    | none => rw [h1] at h; simp at h
    | some resolution =>
      rw [h1] at h
      simp only [] at h
      cases h2 : mapGet resolution proj.storedPackages with
      | none => rw [h2] at h; simp at h
      | some depPkg =>
        rw [h2] at h
        simp only [] at h
        cases h3 : step depPkg out with
        | ok out2 =>
          rw [h3] at h
          simp only [] at h
          exact fun x hx => ih h (hstep _ _ _ h3 hx)
        | err e => rw [h3] at h; simp at h
        | fuelOut => rw [h3] at h; simp at h

theorem collect_mono {proj : Project} {ce : List (String × CacheEntry)} :
    ∀ (fuel : Nat) {pkg out res},
      collectTree proj ce fuel pkg out = .ok res → out ⊆ res := by
  intro fuel
  induction fuel with
  | zero => intro pkg out res h; simp [collectTree] at h
  | succ n ih =>
    intro pkg out res h
    simp only [collectTree] at h
    cases hv : virtStep proj (collectTree proj ce n) pkg (step0 ce pkg out) with
    | ok out2 =>
      rw [hv] at h
      simp only [] at h
      cases hp : patchStep proj (collectTree proj ce n) pkg out2 with
      | ok out3 =>
        rw [hp] at h
        simp only [] at h
        have m1 : step0 ce pkg out ⊆ out2 :=
          virtStep_mono (fun p o r hh => ih hh) hv
        have m2 : out2 ⊆ out3 := patchStep_mono (fun p o r hh => ih hh) hp
        have m3 : out3 ⊆ res := depsFold_mono (fun p o r hh => ih hh) h
        exact fun x hx => m3 (m2 (m1 (step0_subset hx)))
      | err e => rw [hp] at h; simp at h
      | fuelOut => rw [hp] at h; simp at h
    | err e => rw [hv] at h; simp at h
    | fuelOut => rw [hv] at h; simp at h

theorem collect_succ_decomp {proj : Project} {ce : List (String × CacheEntry)}
    {n : Nat} {pkg : Package} {out res : List String}
    (h : collectTree proj ce (n + 1) pkg out = .ok res) :
    ∃ out2 out3,
      virtStep proj (collectTree proj ce n) pkg (step0 ce pkg out) = .ok out2 ∧
      patchStep proj (collectTree proj ce n) pkg out2 = .ok out3 ∧
      depsFold (collectTree proj ce n) proj pkg.dependencies out3 = .ok res := by
  simp only [collectTree] at h
  split at h
  next out2 hv =>
    split at h
    next out3 hp => exact ⟨out2, out3, hv, hp, h⟩
    next e hp => simp at h
    next hp => simp at h
  next e hv => simp at h
  next hv => simp at h

theorem virtStep_ok_virt {proj : Project}
    {rec : Package → List String → CtResult (List String)}
    {pkg : Package} {out out2 : List String}
    (h : virtStep proj rec pkg out = .ok out2)
    (hv : isVirtualLocator pkg = true) :
    ∃ dp, mapGet pkg.devirtHash proj.storedPackages = some dp ∧
      rec dp out = .ok out2 := by
  unfold virtStep at h
  rw [if_pos hv] at h
  cases hm : mapGet pkg.devirtHash proj.storedPackages with
  | none => rw [hm] at h; simp at h
  | some dp => rw [hm] at h; exact ⟨dp, rfl, h⟩

theorem virtStep_ok_plain {proj : Project}
    {rec : Package → List String → CtResult (List String)}
    {pkg : Package} {out out2 : List String}
    (h : virtStep proj rec pkg out = .ok out2)
    (hv : isVirtualLocator pkg = false) : out2 = out := by
  unfold virtStep at h
  rw [if_neg (by simp [hv])] at h
  simpa using h.symm

theorem patchStep_ok_patch {proj : Project}
    {rec : Package → List String → CtResult (List String)}
    {pkg : Package} {out out2 : List String}
    (h : patchStep proj rec pkg out = .ok out2)
    (hv : strStarts pkg.reference "patch:" = true) :
    ∃ dp, mapGet pkg.patchSourceHash proj.storedPackages = some dp ∧
      rec dp out = .ok out2 := by
  unfold patchStep at h
  rw [if_pos hv] at h
  cases hm : mapGet pkg.patchSourceHash proj.storedPackages with
  | none => rw [hm] at h; simp at h
  | some dp => rw [hm] at h; exact ⟨dp, rfl, h⟩

theorem patchStep_ok_plain {proj : Project}
    {rec : Package → List String → CtResult (List String)}
    {pkg : Package} {out out2 : List String}
    (h : patchStep proj rec pkg out = .ok out2)
    (hv : strStarts pkg.reference "patch:" = false) : out2 = out := by
  unfold patchStep at h
  rw [if_neg (by simp [hv])] at h
  simpa using h.symm

theorem depsFold_ok_spec {proj : Project}
    {step : Package → List String → CtResult (List String)}
    (hstep : ∀ p o r, step p o = .ok r → o ⊆ r) :
    ∀ {ds : List Nat} {out res}, depsFold step proj ds out = .ok res →
      ∀ d ∈ ds, ∃ hh p, mapGet d proj.storedResolutions = some hh ∧
        mapGet hh proj.storedPackages = some p ∧
        ∃ o r, step p o = .ok r ∧ r ⊆ res := by
  intro ds
  induction ds with
  | nil => intro out res _ d hd; simp at hd
  | cons d0 rest ih =>
    intro out res h d hd
    simp only [depsFold] at h
    cases h1 : mapGet d0 proj.storedResolutions with
    | none => rw [h1] at h; simp at h
    | some resolution =>
      rw [h1] at h
      simp only [] at h
      cases h2 : mapGet resolution proj.storedPackages with
      | none => rw [h2] at h; simp at h
      | some depPkg =>
        rw [h2] at h
        simp only [] at h
        cases h3 : step depPkg out with
        | ok out2 =>
          rw [h3] at h
          simp only [] at h
          rcases List.mem_cons.1 hd with rfl | hd'
          · exact ⟨resolution, depPkg, h1, h2, out, out2, h3,
              fun x hx => depsFold_mono hstep h hx⟩
          · exact ih h d hd'
        | err e => rw [h3] at h; simp at h
        | fuelOut => rw [h3] at h; simp at h

theorem collect_ok_reaches {proj : Project} {ce : List (String × CacheEntry)}
    {pkg q : Package} (hr : Reaches proj pkg q) :
    ∀ {fuel : Nat} {out res : List String},
      collectTree proj ce fuel pkg out = .ok res →
      consistentAt proj q ∧
        ((mapGet q.locatorStr ce).isSome → q.locatorStr ∈ res) := by
  induction hr with
  | refl p =>
    intro fuel out res h
    cases fuel with
    | zero => simp [collectTree] at h
    | succ n =>
      obtain ⟨out2, out3, hv, hp, hd⟩ := collect_succ_decomp h
      have hmono : ∀ p o r, collectTree proj ce n p o = .ok r → o ⊆ r :=
        fun p o r hh => collect_mono n hh
      refine ⟨⟨?_, ?_, ?_⟩, ?_⟩
      · intro hvt
        obtain ⟨dp, hdp, _⟩ := virtStep_ok_virt hv hvt
        simp [hdp]
      · intro hpt
        obtain ⟨dp, hdp, _⟩ := patchStep_ok_patch hp hpt
        simp [hdp]
      · intro d hd'
        obtain ⟨hh, p', h1, h2, _⟩ := depsFold_ok_spec hmono hd d hd'
        exact ⟨hh, h1, by simp [h2]⟩
      · intro hce
        have m1 : step0 ce p out ⊆ out2 := virtStep_mono hmono hv
        have m2 : out2 ⊆ out3 := patchStep_mono hmono hp
        have m3 : out3 ⊆ res := depsFold_mono hmono hd
        exact m3 (m2 (m1 (mem_step0_self hce)))
  | virt hvt hlk _ ih =>
    intro fuel out res h
    cases fuel with
    | zero => simp [collectTree] at h
    | succ n =>
      obtain ⟨out2, out3, hv, hp, hd⟩ := collect_succ_decomp h
      have hmono : ∀ p o r, collectTree proj ce n p o = .ok r → o ⊆ r :=
        fun p o r hh => collect_mono n hh
      obtain ⟨dp, hdp, hrec⟩ := virtStep_ok_virt hv hvt
      rw [hlk] at hdp
      cases Option.some.inj hdp
      obtain ⟨hcons, hmem⟩ := ih hrec
      have m2 : out2 ⊆ out3 := patchStep_mono hmono hp
      have m3 : out3 ⊆ res := depsFold_mono hmono hd
      exact ⟨hcons, fun hce => m3 (m2 (hmem hce))⟩
  | patch hpt hlk _ ih =>
    intro fuel out res h
    cases fuel with
    | zero => simp [collectTree] at h
    | succ n =>
      obtain ⟨out2, out3, hv, hp, hd⟩ := collect_succ_decomp h
      have hmono : ∀ p o r, collectTree proj ce n p o = .ok r → o ⊆ r :=
        fun p o r hh => collect_mono n hh
      obtain ⟨dp, hdp, hrec⟩ := patchStep_ok_patch hp hpt
      rw [hlk] at hdp
      cases Option.some.inj hdp
      obtain ⟨hcons, hmem⟩ := ih hrec
      have m3 : out3 ⊆ res := depsFold_mono hmono hd
      exact ⟨hcons, fun hce => m3 (hmem hce)⟩
  | dep hdin hres hpkgq _ ih =>
    intro fuel out res h
    cases fuel with
    | zero => simp [collectTree] at h
    | succ n =>
      obtain ⟨out2, out3, hv, hp, hd⟩ := collect_succ_decomp h
      have hmono : ∀ p o r, collectTree proj ce n p o = .ok r → o ⊆ r :=
        fun p o r hh => collect_mono n hh
      obtain ⟨hh, p', h1, h2, o, r', hcall, hsubres⟩ :=
        depsFold_ok_spec hmono hd _ hdin
      rw [hres] at h1
      cases Option.some.inj h1
      rw [hpkgq] at h2
      cases Option.some.inj h2
      obtain ⟨hcons, hmem⟩ := ih hcall
      exact ⟨hcons, fun hce => hsubres (hmem hce)⟩

theorem virtStep_ok_sound {proj : Project}
    {rec : Package → List String → CtResult (List String)}
    {P : Package → String → Prop}
    (hstep : ∀ p o r, rec p o = .ok r → ∀ s ∈ r, s ∈ o ∨ P p s) :
    ∀ {pkg out out2}, virtStep proj rec pkg out = .ok out2 →
      ∀ s ∈ out2, s ∈ out ∨ ∃ dp, isVirtualLocator pkg = true ∧
        mapGet pkg.devirtHash proj.storedPackages = some dp ∧ P dp s := by
  intro pkg out out2 h s hs
  by_cases hv : isVirtualLocator pkg = true
  · obtain ⟨dp, hdp, hrec⟩ := virtStep_ok_virt h hv
    rcases hstep _ _ _ hrec s hs with h' | h'
    · exact Or.inl h'
    · exact Or.inr ⟨dp, hv, hdp, h'⟩
  · have he := virtStep_ok_plain h (by simpa using hv)
    subst he
    exact Or.inl hs

theorem patchStep_ok_sound {proj : Project}
    {rec : Package → List String → CtResult (List String)}
    {P : Package → String → Prop}
    (hstep : ∀ p o r, rec p o = .ok r → ∀ s ∈ r, s ∈ o ∨ P p s) :
    ∀ {pkg out out2}, patchStep proj rec pkg out = .ok out2 →
      ∀ s ∈ out2, s ∈ out ∨ ∃ dp, strStarts pkg.reference "patch:" = true ∧
        mapGet pkg.patchSourceHash proj.storedPackages = some dp ∧ P dp s := by
  intro pkg out out2 h s hs
  by_cases hv : strStarts pkg.reference "patch:" = true
  · obtain ⟨dp, hdp, hrec⟩ := patchStep_ok_patch h hv
    rcases hstep _ _ _ hrec s hs with h' | h'
    · exact Or.inl h'
    · exact Or.inr ⟨dp, hv, hdp, h'⟩
  · have he := patchStep_ok_plain h (by simpa using hv)
    subst he
    exact Or.inl hs

theorem depsFold_ok_sound {proj : Project}
    {step : Package → List String → CtResult (List String)}
    {P : Package → String → Prop}
    (hstep : ∀ p o r, step p o = .ok r → ∀ s ∈ r, s ∈ o ∨ P p s) :
    ∀ {ds : List Nat} {out res}, depsFold step proj ds out = .ok res →
      ∀ s ∈ res, s ∈ out ∨ ∃ d ∈ ds, ∃ hh p,
        mapGet d proj.storedResolutions = some hh ∧
        mapGet hh proj.storedPackages = some p ∧ P p s := by
  intro ds
  induction ds with
  | nil =>
    intro out res h s hs
    simp only [depsFold] at h
    simp at h
    subst h
    exact Or.inl hs
  | cons d0 rest ih =>
    intro out res h s hs
    simp only [depsFold] at h
    split at h
    next => simp at h
    next resolution h1 =>
      split at h
      next => simp at h
      next depPkg h2 =>
        split at h
        next out2 h3 =>
          rcases ih h s hs with h' | ⟨d, hd, hh, p, e1, e2, hP⟩
          · rcases hstep _ _ _ h3 s h' with h'' | h''
            · exact Or.inl h''
            · exact Or.inr ⟨d0, by simp, resolution, depPkg, h1, h2, h''⟩
          · exact Or.inr ⟨d, List.mem_cons_of_mem _ hd, hh, p, e1, e2, hP⟩
        next r hne h3 =>
          exact absurd h (h3 res)

theorem collect_ok_sound {proj : Project} {ce : List (String × CacheEntry)} :
    ∀ (fuel : Nat) {pkg : Package} {out res : List String},
      collectTree proj ce fuel pkg out = .ok res →
      ∀ s ∈ res, s ∈ out ∨
        ((mapGet s ce).isSome ∧ ∃ q, Reaches proj pkg q ∧ q.locatorStr = s) := by
  intro fuel
  induction fuel with
  | zero => intro pkg out res h; simp [collectTree] at h
  | succ n ih =>
    intro pkg out res h s hs
    obtain ⟨out2, out3, hv, hp, hd⟩ := collect_succ_decomp h
    have hstep : ∀ p o r, collectTree proj ce n p o = .ok r → ∀ s ∈ r,
        s ∈ o ∨ ((mapGet s ce).isSome ∧
          ∃ q, Reaches proj p q ∧ q.locatorStr = s) :=
      fun p o r hh => ih hh
    rcases depsFold_ok_sound hstep hd s hs with
      h3 | ⟨d, hdmem, hh, p', e1, e2, hce, qq, hq, rfl⟩
    · rcases patchStep_ok_sound hstep hp s h3 with
        h2 | ⟨dp, hpt, hlk, hce, qq, hq, rfl⟩
      · rcases virtStep_ok_sound hstep hv s h2 with
          h1 | ⟨dp, hvt, hlk, hce, qq, hq, rfl⟩
        · rcases mem_step0 h1 with h0 | ⟨rfl, hce⟩
          · exact Or.inl h0
          · exact Or.inr ⟨hce, pkg, Reaches.refl pkg, rfl⟩
        · exact Or.inr ⟨hce, qq, Reaches.virt hvt hlk hq, rfl⟩
      · exact Or.inr ⟨hce, qq, Reaches.patch hpt hlk hq, rfl⟩
    · exact Or.inr ⟨hce, qq, Reaches.dep hdmem e1 e2 hq, rfl⟩

/-- C1: the claim fails on the code. `collectTree` has no visited-set
check: on the two-package dependency cycle `a ↔ b` (both of them cache
entries) it recurses forever — no recursion-depth budget suffices, at any
starting accumulator — instead of terminating with the set `{a, b}` as the
claim states. In the JS original this is an unbounded recursion that
crashes with a stack overflow. -/
theorem c1_collectTree_diverges_on_cycle :
    ∀ (fuel : Nat) (out : List String),
      collectTree cycProj cycCE fuel cycA out = .fuelOut ∧
      collectTree cycProj cycCE fuel cycB out = .fuelOut := by
  intro fuel
  induction fuel with
  | zero => exact fun _ => ⟨rfl, rfl⟩
  | succ n ih =>
    intro out
    have e1 : isVirtualLocator cycA = false := by decide
    have e2 : strStarts cycA.reference "patch:" = false := by decide
    have e3 : isVirtualLocator cycB = false := by decide
    have e4 : strStarts cycB.reference "patch:" = false := by decide
    have e5 : mapGet 10 cycProj.storedResolutions = some 1 := by decide
    have e6 : mapGet 1 cycProj.storedPackages = some cycB := by decide
    have e7 : mapGet 11 cycProj.storedResolutions = some 0 := by decide
    have e8 : mapGet 0 cycProj.storedPackages = some cycA := by decide
    have eA : cycA.dependencies = [10] := rfl
    have eB : cycB.dependencies = [11] := rfl
    have hB := (ih (step0 cycCE cycA out)).2
    have hA := (ih (step0 cycCE cycB out)).1
    constructor
    · simp only [collectTree, virtStep, patchStep, depsFold, e1, e2, e5, e6,
        eA, Bool.false_eq_true, if_false, hB]
    · simp only [collectTree, virtStep, patchStep, depsFold, e3, e4, e7, e8,
        eB, Bool.false_eq_true, if_false, hA]

/-- C4: when the Closure Walker returns, the returned set is exactly the
set of cache-entry keys whose package is reachable from the root through
direct-dependency, devirtualization and patch-delink edges — so the
closure is complete: the cache-keyed transitive neighbourhood of every
member is included. -/
theorem c4_closure_reachability {proj : Project}
    {ce : List (String × CacheEntry)} {fuel : Nat} {pkg : Package}
    {res : List String} (h : collectTree proj ce fuel pkg [] = .ok res) :
    ∀ s, s ∈ res ↔
      ((mapGet s ce).isSome ∧ ∃ q, Reaches proj pkg q ∧ q.locatorStr = s) := by
  intro s
  constructor
  · intro hs
    rcases collect_ok_sound fuel h s hs with h' | h'
    · simp at h'
    · exact h'
  · rintro ⟨hce, q, hr, rfl⟩
    exact (collect_ok_reaches hr h).2 hce

theorem c4_witness_aux :
    collectTree demoProj demoCE 2 demoR [] = .ok ["r@npm:1.0.0", "a@npm:1.0.0"] := by
  decide

/-- Witness for C4 at a concrete two-package graph, instantiated at a
member of the returned closure and at a non-member. -/
theorem c4_closure_reachability_witness :
    ("a@npm:1.0.0" ∈ ["r@npm:1.0.0", "a@npm:1.0.0"] ↔
      ((mapGet "a@npm:1.0.0" demoCE).isSome ∧
        ∃ q, Reaches demoProj demoR q ∧ q.locatorStr = "a@npm:1.0.0")) ∧
    ("zzz" ∈ ["r@npm:1.0.0", "a@npm:1.0.0"] ↔
      ((mapGet "zzz" demoCE).isSome ∧
        ∃ q, Reaches demoProj demoR q ∧ q.locatorStr = "zzz")) :=
  ⟨c4_closure_reachability c4_witness_aux "a@npm:1.0.0",
   c4_closure_reachability c4_witness_aux "zzz"⟩

theorem planStep_ok_spec {env : Env} {proj : Project}
    {ce : List (String × CacheEntry)} {fuel : Nat} {st : PlanState} {h : Nat}
    {st' : PlanState} (hok : planStep env proj ce fuel st h = .ok st') :
    ∃ pkg, mapGet h proj.storedPackages = some pkg ∧
      ((pkg.name ∉ env.isolatedBuilds ∧ st' = st) ∨
       (pkg.name ∈ env.isolatedBuilds ∧ env.nodeLinker = "pnp" ∧
        ∃ dv, devirtOf proj pkg = some dv ∧
        ∃ st1,
          ((dv ∈ st.isolatedPackages ∧ st1 = st) ∨
           (dv ∉ st.isolatedPackages ∧
            ∃ ts, collectTree proj ce fuel pkg [] = .ok ts ∧
              st1 = pushTarget st dv
                ⟨dv.locatorStr, pkg.name, pkg.version,
                 List.insertionSort (fun a b => strLe a b = true) ts⟩
                (mkIsolatedCodeStr ("isolated." ++ json dv.locatorStr)
                  ("override" ++ upperCamelize pkg.name ++ "Attrs")
                  pkg.name pkg.version
                  (String.join ((List.insertionSort (fun a b => strLe a b = true) ts).map
                    (fun v => json v ++ "\n")))))) ∧
          st' = pushInjection
            (if st1.isolatedIntegration.isEmpty then
              addIntegration st1 ["# Copy in isolated builds."] else st1)
            pkg.name pkg.locatorStr dv.locatorStr
            ("isolated." ++ json dv.locatorStr)
            (installLocationOf env pkg))) := by
  unfold planStep at hok
  split at hok
  next => simp at hok
  next pkg hm =>
    refine ⟨pkg, hm, ?_⟩
    by_cases hmem : pkg.name ∈ env.isolatedBuilds
    · rw [if_pos hmem] at hok
      by_cases hpnp : env.nodeLinker = "pnp"
      · rw [if_pos hpnp] at hok
        split at hok
        next hdv => simp at hok
        next dv hdv =>
          simp only [] at hok
          right
          refine ⟨hmem, hpnp, dv, ?_, ?_⟩
          · unfold devirtOf
            exact hdv
          · by_cases hin : dv ∈ st.isolatedPackages
            · rw [if_pos hin] at hok
              simp only [] at hok
              refine ⟨st, Or.inl ⟨hin, rfl⟩, ?_⟩
              simpa using hok.symm
            · rw [if_neg hin] at hok
              split at hok
              next st1 heq =>
                split at heq
                next hct => simp at heq
                next e hct => simp at heq
                next ts hct =>
                  simp only [CtResult.ok.injEq] at heq
                  subst heq
                  refine ⟨_, Or.inr ⟨hin, ts, hct, rfl⟩, ?_⟩
                  simpa using hok.symm
              next r hne heq =>
                simp_all
      · rw [if_neg hpnp] at hok
        simp at hok
    · rw [if_neg hmem] at hok
      simp at hok
      exact Or.inl ⟨hmem, hok.symm⟩

theorem stMid_injections (st1 : PlanState) (l : List String) :
    (if st1.isolatedIntegration.isEmpty then addIntegration st1 l
     else st1).injections = st1.injections := by
  split <;> rfl

theorem stMid_targets (st1 : PlanState) (l : List String) :
    (if st1.isolatedIntegration.isEmpty then addIntegration st1 l
     else st1).targets = st1.targets := by
  split <;> rfl

theorem stMid_isolatedPackages (st1 : PlanState) (l : List String) :
    (if st1.isolatedIntegration.isEmpty then addIntegration st1 l
     else st1).isolatedPackages = st1.isolatedPackages := by
  split <;> rfl

theorem stMid_isolatedCode (st1 : PlanState) (l : List String) :
    (if st1.isolatedIntegration.isEmpty then addIntegration st1 l
     else st1).isolatedCode = st1.isolatedCode := by
  split <;> rfl

theorem devirtOf_mem {proj : Project} {pkg dv : Package}
    (hdv : devirtOf proj pkg = some dv)
    (hpkg : pkg ∈ proj.storedPackages.map Prod.snd) :
    dv ∈ proj.storedPackages.map Prod.snd := by
  unfold devirtOf at hdv
  split at hdv
  · rcases List.mem_map.2 ⟨_, mapGet_mem hdv, rfl⟩ with h'
    exact h'
  · cases Option.some.inj hdv
    exact hpkg

theorem strListLe_total : ∀ a b : List Char,
    strListLe a b = true ∨ strListLe b a = true := by
  intro a
  induction a with
  | nil => intro b; left; rfl
  | cons x xs ih =>
    intro b
    cases b with
    | nil => right; rfl
    | cons y ys =>
      by_cases h1 : x.toNat < y.toNat
      · left; simp [strListLe, h1]
      · by_cases h2 : y.toNat < x.toNat
        · right; simp [strListLe, h2]
        · rcases ih ys with h | h
          · left; simp [strListLe, h1, h2, h]
          · right; simp [strListLe, h1, h2, h]

theorem strListLe_trans : ∀ {a b c : List Char}, strListLe a b = true →
    strListLe b c = true → strListLe a c = true := by
  intro a
  induction a with
  | nil => intro b c _ _; rfl
  | cons x xs ih =>
    intro b c hab hbc
    cases b with
    | nil => simp [strListLe] at hab
    | cons y ys =>
      cases c with
      | nil => simp [strListLe] at hbc
      | cons z zs =>
        by_cases h1 : x.toNat < y.toNat
        · by_cases h3 : y.toNat < z.toNat
          · simp [strListLe, show x.toNat < z.toNat by omega]
          · by_cases h4 : z.toNat < y.toNat
            · simp [strListLe, h3, h4] at hbc
            · simp [strListLe, show x.toNat < z.toNat by omega]
        · by_cases h2 : y.toNat < x.toNat
          · simp [strListLe, h1, h2] at hab
          · simp only [strListLe, if_neg h1, if_neg h2] at hab
            by_cases h3 : y.toNat < z.toNat
            · simp [strListLe, show x.toNat < z.toNat by omega]
            · by_cases h4 : z.toNat < y.toNat
              · simp [strListLe, h3, h4] at hbc
              · simp only [strListLe, if_neg h3, if_neg h4] at hbc
                simp only [strListLe,
                  if_neg (show ¬ x.toNat < z.toNat by omega),
                  if_neg (show ¬ z.toNat < x.toNat by omega)]
                exact ih hab hbc

theorem strLe_sorted_insertionSort (l : List String) :
    List.Sorted (fun a b => strLe a b = true)
      (List.insertionSort (fun a b => strLe a b = true) l) :=
  @List.sorted_insertionSort String (fun a b => strLe a b = true) _
    ⟨fun a b => strListLe_total a.data b.data⟩
    ⟨fun _ _ _ hab hbc => strListLe_trans hab hbc⟩ l

theorem planStep_inv {env : Env} {proj : Project}
    {ce : List (String × CacheEntry)} {fuel : Nat} {st : PlanState} {h : Nat}
    {st' : PlanState} (hok : planStep env proj ce fuel st h = .ok st')
    (hinv : PlanInv proj st) : PlanInv proj st' := by
  obtain ⟨pkg, hm, hcase⟩ := planStep_ok_spec hok
  rcases hcase with ⟨_, rfl⟩ | ⟨hmem, hpnp, dv, hdv, st1, hst1, hst'⟩
  · exact hinv
  · obtain ⟨inv1, inv2, inv3, inv4, inv5, inv6⟩ := hinv
    have hdvmem : dv ∈ proj.storedPackages.map Prod.snd :=
      devirtOf_mem hdv (List.mem_map.2 ⟨_, mapGet_mem hm, rfl⟩)
    have hst1facts : (∀ p ∈ st1.isolatedPackages,
          p ∈ proj.storedPackages.map Prod.snd) ∧
        st1.targets.map Target.buildLocatorStr =
          st1.isolatedPackages.map Package.locatorStr ∧
        st1.isolatedPackages.Nodup ∧
        st1.injections = st.injections ∧
        dv.locatorStr ∈ st1.isolatedPackages.map Package.locatorStr ∧
        st.targets.map Target.buildLocatorStr ⊆
          st1.targets.map Target.buildLocatorStr ∧
        (∀ t ∈ st1.targets, List.Sorted (fun a b => strLe a b = true) t.locators) := by
      rcases hst1 with ⟨hin, rfl⟩ | ⟨hin, ts, hct, rfl⟩
      · exact ⟨inv1, inv2, inv3, rfl,
          List.mem_map.2 ⟨dv, hin, rfl⟩, fun x hx => hx, inv6⟩
      · refine ⟨?_, ?_, ?_, rfl, ?_, ?_, ?_⟩
        · intro p hp
          simp only [pushTarget, List.mem_append, List.mem_singleton] at hp
          rcases hp with hp | rfl
          · exact inv1 p hp
          · exact hdvmem
        · simp [pushTarget, inv2]
        · simp only [pushTarget]
          rw [List.nodup_append]
          exact ⟨inv3, List.nodup_singleton dv, by simpa using hin⟩
        · simp [pushTarget]
        · simp [pushTarget]
        · intro t ht
          simp only [pushTarget, List.mem_append, List.mem_singleton] at ht
          rcases ht with ht | rfl
          · exact inv6 t ht
          · exact strLe_sorted_insertionSort ts
    obtain ⟨j1, j2, j3, j4, j5, j6, j7⟩ := hst1facts
    subst hst'
    refine ⟨?_, ?_, ?_, ?_, ?_, ?_⟩
    · intro p hp
      simp only [pushInjection, stMid_isolatedPackages] at hp
      exact j1 p hp
    · simp only [pushInjection, stMid_targets, stMid_isolatedPackages]
      exact j2
    · simp only [pushInjection, stMid_isolatedPackages]
      exact j3
    · intro i hi
      simp only [pushInjection, stMid_injections, List.mem_append,
        List.mem_singleton] at hi
      simp only [pushInjection, stMid_targets]
      rcases hi with hi | rfl
      · rw [j4] at hi
        exact List.Subset.trans j6 (by rw [j2]; exact fun x hx => hx)
          (inv4 i hi)
      · simp only []
        rw [j2]
        exact j5
    · intro hinj
      simp only [pushInjection, stMid_injections] at hinj
      simp at hinj
    · intro t ht
      simp only [pushInjection, stMid_targets] at ht
      exact j7 t ht

theorem planStep_injections {env : Env} {proj : Project}
    {ce : List (String × CacheEntry)} {fuel : Nat} {st : PlanState} {h : Nat}
    {st' : PlanState} (hok : planStep env proj ce fuel st h = .ok st') :
    ∃ pkg, mapGet h proj.storedPackages = some pkg ∧
      ((pkg.name ∉ env.isolatedBuilds ∧ st' = st) ∨
       (pkg.name ∈ env.isolatedBuilds ∧ env.nodeLinker = "pnp" ∧
        ∃ dv, devirtOf proj pkg = some dv ∧
          st'.injections = st.injections ++
            [⟨pkg.name, pkg.locatorStr, dv.locatorStr,
              installLocationOf env pkg⟩])) := by
  obtain ⟨pkg, hm, hcase⟩ := planStep_ok_spec hok
  refine ⟨pkg, hm, ?_⟩
  rcases hcase with ⟨hnot, rfl⟩ | ⟨hmem, hpnp, dv, hdv, st1, hst1, hst'⟩
  · exact Or.inl ⟨hnot, rfl⟩
  · right
    refine ⟨hmem, hpnp, dv, hdv, ?_⟩
    subst hst'
    have hj : st1.injections = st.injections := by
      rcases hst1 with ⟨_, rfl⟩ | ⟨_, ts, _, rfl⟩
      · rfl
      · rfl
    simp only [pushInjection, stMid_injections, hj]

theorem planLoop_spec {env : Env} {proj : Project}
    {ce : List (String × CacheEntry)} {fuel : Nat} :
    ∀ {hs : List Nat} {st st' : PlanState},
      planLoop env proj ce fuel hs st = .ok st' → PlanInv proj st →
      (PlanInv proj st' ∧
       st'.injections = st.injections ++
         (matchedOver env proj hs).filterMap (occInj env proj) ∧
       (∀ p ∈ matchedOver env proj hs, (devirtOf proj p).isSome) ∧
       (matchedOver env proj hs ≠ [] → env.nodeLinker = "pnp") ∧
       (matchedOver env proj hs = [] → st' = st) ∧
       (∀ h ∈ hs, (mapGet h proj.storedPackages).isSome)) := by
  intro hs
  induction hs with
  | nil =>
    intro st st' h hinv
    simp only [planLoop] at h
    simp at h
    subst h
    refine ⟨hinv, by simp [matchedOver], by simp [matchedOver],
      by simp [matchedOver], fun _ => rfl, by simp⟩
  | cons h0 rest ih =>
    intro st st' h hinv
    simp only [planLoop] at h
    cases hps : planStep env proj ce fuel st h0 with
    | ok st2 =>
      rw [hps] at h
      simp only [] at h
      have hinv2 : PlanInv proj st2 := planStep_inv hps hinv
      obtain ⟨inv', hinj, hdvok, hpnp', hid, hlk⟩ := ih h hinv2
      obtain ⟨pkg, hm, hcase⟩ := planStep_injections hps
      rcases hcase with ⟨hnot, rfl⟩ | ⟨hmem, hpnp, dv, hdv, hinjeq⟩
      · have hmo : matchedOver env proj (h0 :: rest) =
            matchedOver env proj rest := by
          simp [matchedOver, List.filterMap_cons, hm, hnot]
        rw [hmo]
        exact ⟨inv', hinj, hdvok, hpnp', hid,
          fun x hx => by
            rcases List.mem_cons.1 hx with rfl | hx'
            · simp [hm]
            · exact hlk x hx'⟩
      · have hmo : matchedOver env proj (h0 :: rest) =
            pkg :: matchedOver env proj rest := by
          simp [matchedOver, List.filterMap_cons, hm, hmem]
        rw [hmo]
        refine ⟨inv', ?_, ?_, fun _ => hpnp, ?_, ?_⟩
        · rw [hinj, hinjeq]
          simp [List.filterMap_cons, occInj, hdv]
        · intro p hp
          rcases List.mem_cons.1 hp with rfl | hp'
          · simp [hdv]
          · exact hdvok p hp'
        · intro hcontra
          simp at hcontra
        · intro x hx
          rcases List.mem_cons.1 hx with rfl | hx'
          · simp [hm]
          · exact hlk x hx'
    | err e => rw [hps] at h; simp at h
    | fuelOut => rw [hps] at h; simp at h

theorem planInv_empty {proj : Project} : PlanInv proj emptyPlan := by
  refine ⟨?_, rfl, List.nodup_nil, ?_, fun _ => rfl, ?_⟩ <;> simp [emptyPlan]

theorem filterMap_length_of_isSome {α β : Type} {f : α → Option β} :
    ∀ {l : List α}, (∀ a ∈ l, (f a).isSome) →
      (l.filterMap f).length = l.length := by
  intro l
  induction l with
  | nil => intro; rfl
  | cons a rest ih =>
    intro hall
    have ha := hall a (by simp)
    cases hfa : f a with
    | none => rw [hfa] at ha; simp at ha
    | some b =>
      rw [List.filterMap_cons, hfa]
      simp only [List.length_cons]
      rw [ih (fun x hx => hall x (by simp [hx]))]

theorem nodup_locatorStr_of_stored {proj : Project} (hwf : wfProject proj)
    {l : List Package} (hmem : ∀ p ∈ l, p ∈ proj.storedPackages.map Prod.snd)
    (hnd : l.Nodup) : (l.map Package.locatorStr).Nodup := by
  refine List.Nodup.map_on ?_ hnd
  intro x hx y hy hxy
  exact List.inj_on_of_nodup_map hwf.2 (hmem x hx) (hmem y hy) hxy

/-- C2: per generation run, an allow-listed package occurring several
times (by devirtualized identity) compiles to exactly one
IsolatedBuildTarget and one InjectionStep per occurrence: the planner's
injections are exactly one per matched occurrence (carrying that
occurrence's devirtualized identity), target identities are unique, every
injection refers to an emitted target, and every occurrence's
devirtualized identity has an emitted target. -/
theorem c2_isolated_dedup {env : Env} {proj : Project} {fuel : Nat}
    {st : PlanState} (hwf : wfProject proj)
    (hok : planLoop env proj (cacheEntriesOf env proj) fuel
      proj.storedBuildState emptyPlan = .ok st) :
    st.injections = (matchedOccs env proj).filterMap (occInj env proj) ∧
    st.injections.length = (matchedOccs env proj).length ∧
    (st.targets.map Target.buildLocatorStr).Nodup ∧
    (∀ i ∈ st.injections,
      i.buildLocatorStr ∈ st.targets.map Target.buildLocatorStr) ∧
    (∀ p ∈ matchedOccs env proj, ∀ dv, devirtOf proj p = some dv →
      dv.locatorStr ∈ st.targets.map Target.buildLocatorStr) := by
  obtain ⟨⟨inv1, inv2, inv3, inv4, _, _⟩, hinj, hdvok, _, _, _⟩ :=
    planLoop_spec hok planInv_empty
  have hinj' : st.injections =
      (matchedOccs env proj).filterMap (occInj env proj) := by
    rw [hinj]; rfl
  have hlen : st.injections.length = (matchedOccs env proj).length := by
    rw [hinj']
    apply filterMap_length_of_isSome
    intro p hp
    have := hdvok p hp
    cases hdv : devirtOf proj p with
    | none => rw [hdv] at this; simp at this
    | some dv => simp [occInj, hdv]
  refine ⟨hinj', hlen, ?_, inv4, ?_⟩
  · rw [inv2]
    exact nodup_locatorStr_of_stored hwf inv1 inv3
  · intro p hp dv hdv
    have hi : (⟨p.name, p.locatorStr, dv.locatorStr,
        installLocationOf env p⟩ : Injection) ∈ st.injections := by
      rw [hinj']
      exact List.mem_filterMap.2 ⟨p, hp, by simp [occInj, hdv]⟩
    exact inv4 _ hi

/-- Witness for C2 at a concrete run: two virtual occurrences (distinct
peer contexts) of `native-lib` produce one target and two injections. -/
theorem c2_isolated_dedup_witness :
    isoSt.injections =
      (matchedOccs envIso isoProj).filterMap (occInj envIso isoProj) ∧
    isoSt.injections.length = (matchedOccs envIso isoProj).length ∧
    (isoSt.targets.map Target.buildLocatorStr).Nodup ∧
    (∀ i ∈ isoSt.injections,
      i.buildLocatorStr ∈ isoSt.targets.map Target.buildLocatorStr) ∧
    (∀ p ∈ matchedOccs envIso isoProj, ∀ dv, devirtOf isoProj p = some dv →
      dv.locatorStr ∈ isoSt.targets.map Target.buildLocatorStr) :=
  @c2_isolated_dedup envIso isoProj 5 isoSt
    (by unfold wfProject; exact ⟨by decide, by decide⟩) (by decide)

theorem planLoop_nonpnp_err {env : Env} {proj : Project}
    {ce : List (String × CacheEntry)} {fuel : Nat}
    (hnl : env.nodeLinker ≠ "pnp") :
    ∀ {hs : List Nat} {st : PlanState}, matchedOver env proj hs ≠ [] →
      ∃ e, planLoop env proj ce fuel hs st = .err e := by
  intro hs
  induction hs with
  | nil => intro st hm; simp [matchedOver] at hm
  | cons h0 rest ih =>
    intro st hm
    simp only [planLoop]
    cases hlk : mapGet h0 proj.storedPackages with
    | none =>
      refine ⟨locMissingMsg, ?_⟩
      have : planStep env proj ce fuel st h0 = .err locMissingMsg := by
        unfold planStep
        rw [hlk]
      rw [this]
    | some pkg =>
      by_cases hmem : pkg.name ∈ env.isolatedBuilds
      · refine ⟨"The nodeLinker " ++ env.nodeLinker ++
          " is not supported for isolated Nix builds", ?_⟩
        have : planStep env proj ce fuel st h0 = .err ("The nodeLinker " ++
            env.nodeLinker ++ " is not supported for isolated Nix builds") := by
          unfold planStep
          rw [hlk]
          simp only []
          rw [if_pos hmem, if_neg hnl]
        rw [this]
      · have hstep : planStep env proj ce fuel st h0 = .ok st := by
          unfold planStep
          rw [hlk]
          simp only []
          rw [if_neg hmem]
        rw [hstep]
        simp only []
        apply ih
        intro hcontra
        apply hm
        simp [matchedOver, List.filterMap_cons, hlk, hmem] at hcontra ⊢
        exact hcontra

/-- C3 counterexample: in the install-hook generator, a run whose linker
mode is `node-modules` (not the supported `pnp`) but in which no installed
package matches the isolation allow-list completes without any error and
writes the build description — contradicting the claim that every such
run aborts with an unsupported-configuration error and produces no build
description. -/
theorem c3_nonpnp_counterexample :
    envNodeModules.nodeLinker ≠ "pnp" ∧
    generator envNodeModules emptyProj 1 =
      .ok ⟨[], [], [("yarn-project.nix", "tmpl")], [], []⟩ :=
  ⟨by decide, by decide⟩

/-- C3 amended: the command-layer generator (src/src/index.ts) always
aborts on a non-pnp linker, reporting the error once and writing nothing;
the install-hook generator (src/unnamed/part_000) raises the
unsupported-linker failure only when some installed package matches the
isolation allow-list, in which case it fails before writing any build
description; with no matching package it proceeds normally. -/
theorem c3_nonpnp_amended :
    (∀ (env : EnvCmd) (fuel : Nat), env.nodeLinker ≠ "pnp" →
      generateCmd env fuel = .ok ⟨[onlyPnpMsg], [], [], []⟩) ∧
    (∀ (env : Env) (proj : Project) (fuel : Nat), env.nodeLinker ≠ "pnp" →
      strStarts env.cwd env.tempDir = false →
      matchedOccs env proj ≠ [] →
      ∃ e, generator env proj fuel = .err e) := by
  constructor
  · intro env fuel hne
    simp [generateCmd, hne]
  · intro env proj fuel hnl hnt hm
    obtain ⟨e, he⟩ := @planLoop_nonpnp_err env proj (cacheEntriesOf env proj)
      fuel hnl proj.storedBuildState emptyPlan hm
    refine ⟨e, ?_⟩
    simp only [generator, hnt, Bool.false_eq_true, if_false]
    rw [he]

/-- Witness for the amended C3 at concrete runs. -/
theorem c3_nonpnp_amended_witness :
    generateCmd envCmdNM 1 = .ok ⟨[onlyPnpMsg], [], [], []⟩ ∧
    envIsoNM.nodeLinker ≠ "pnp" ∧ matchedOccs envIsoNM isoProj ≠ [] ∧
    generator envIsoNM isoProj 1 = .err
      "The nodeLinker node-modules is not supported for isolated Nix builds" :=
  ⟨c3_nonpnp_amended.1 envCmdNM 1 (by decide), by decide, by decide, by decide⟩

/-- C6: internal graph inconsistency is never silently skipped. A Closure
Walker call that returns a result implies every package reachable from its
root has all its lookups succeed (a missing resolution-table entry or
devirtualization/patch-delink target reachable from the root therefore
makes the run fail — with the assertion error, or by diverging on an
unrelated cycle — but never return). An isolation-planner run that
returns implies every build-state key resolves to a stored package and
every matched occurrence's devirtualization target exists. -/
theorem c6_graph_inconsistency_fatal :
    (∀ (proj : Project) (ce : List (String × CacheEntry)) (fuel : Nat)
        (pkg : Package) (out res : List String),
      collectTree proj ce fuel pkg out = .ok res →
      ∀ q, Reaches proj pkg q → consistentAt proj q) ∧
    (∀ (env : Env) (proj : Project) (ce : List (String × CacheEntry))
        (fuel : Nat) (st st' : PlanState),
      planLoop env proj ce fuel proj.storedBuildState st = .ok st' →
      PlanInv proj st →
      (∀ h ∈ proj.storedBuildState, (mapGet h proj.storedPackages).isSome) ∧
      (∀ p ∈ matchedOccs env proj, (devirtOf proj p).isSome)) := by
  constructor
  · intro proj ce fuel pkg out res h q hr
    exact (collect_ok_reaches hr h).1
  · intro env proj ce fuel st st' h hinv
    obtain ⟨_, _, hdvok, _, _, hlk⟩ := planLoop_spec h hinv
    exact ⟨hlk, hdvok⟩

/-- Witness for C6 at concrete consistent runs. -/
theorem c6_graph_inconsistency_fatal_witness :
    consistentAt demoProj demoR ∧
    ((∀ h ∈ demoProj.storedBuildState,
        (mapGet h demoProj.storedPackages).isSome) ∧
     (∀ p ∈ matchedOccs baseEnv demoProj, (devirtOf demoProj p).isSome)) :=
  ⟨c6_graph_inconsistency_fatal.1 demoProj demoCE 2 demoR []
      ["r@npm:1.0.0", "a@npm:1.0.0"] (by decide) demoR (Reaches.refl demoR),
   c6_graph_inconsistency_fatal.2 baseEnv demoProj demoCE 2 emptyPlan
      emptyPlan (by decide) planInv_empty⟩

/-- C7: generation is a pure function of its declared inputs — equal
environments (resolved graph, checksums, cache listing, configuration,
oracles) give byte-identical rendered output — and every emitted
isolated-build target's locator closure is sorted in code-unit
(lexicographic) order; cache entries and targets are accumulated by
append-only folds over the stable input and first-seen orders. -/
theorem c7_deterministic_output
    (env1 env2 : Env) (proj1 proj2 : Project) (fuel : Nat)
    (henv : env1 = env2) (hproj : proj1 = proj2) :
    generator env1 proj1 fuel = generator env2 proj2 fuel ∧
    (∀ st, planLoop env1 proj1 (cacheEntriesOf env1 proj1) fuel
        proj1.storedBuildState emptyPlan = .ok st →
      ∀ t ∈ st.targets, List.Sorted (fun a b => strLe a b = true) t.locators) := by
  subst henv
  subst hproj
  refine ⟨rfl, ?_⟩
  intro st hok t ht
  obtain ⟨⟨_, _, _, _, _, hsorted⟩, _⟩ := planLoop_spec hok planInv_empty
  exact hsorted t ht

/-- Witness for C7 at a concrete run with a nonempty sorted closure. -/
theorem c7_deterministic_output_witness :
    generator envIso isoProj 5 = generator envIso isoProj 5 ∧
    (∀ st, planLoop envIso isoProj (cacheEntriesOf envIso isoProj) 5
        isoProj.storedBuildState emptyPlan = .ok st →
      ∀ t ∈ st.targets, List.Sorted (fun a b => strLe a b = true) t.locators) :=
  c7_deterministic_output envIso envIso isoProj isoProj 5 rfl rfl

theorem generator_ok_decomp {env : Env} {proj : Project} {fuel : Nat}
    {g : GenOut} (hnt : strStarts env.cwd env.tempDir = false)
    (hok : generator env proj fuel = .ok g) :
    ∃ st0, planLoop env proj (cacheEntriesOf env proj) fuel
        proj.storedBuildState emptyPlan = .ok st0 ∧
      g.writes = (env.nixExprPath,
          projectExprOf env (cacheEntriesOf env proj) (stAfterLoop st0)) ::
        (wrapperOf env).1 := by
  simp only [generator, hnt, Bool.false_eq_true, if_false] at hok
  split at hok
  next e heq => simp at hok
  next heq => simp at hok
  next st0 heq =>
    refine ⟨st0, heq, ?_⟩
    split at hok
    next e h2 => simp at hok
    next h2 => simp at hok
    next copies execs preloadInfos h2 =>
      simp only [CtResult.ok.injEq] at hok
      subst hok
      rfl

theorem dropConds_allFalse {flags : List (String × Bool)}
    (hall : ∀ n, lookupFlag flags n = false) :
    ∀ (ls : List String) (b : Bool), dropConds flags ls b = dropRegionAux ls b := by
  intro ls
  induction ls with
  | nil => intro b; rfl
  | cons line rest ih =>
    intro b
    simp only [dropConds, dropRegionAux, hall]
    by_cases h1 : strStarts line "#@@ IF " = true
    · simp [h1, ih]
    · simp only [h1, Bool.false_eq_true, if_false]
      by_cases h2 : strStarts line "#@@ ENDIF" = true
      · simp [h2, ih]
      · cases b
        · simp [h2, ih]
        · simp [h2, ih]

theorem renderTmpl_flag_false (tmpl : String) (sv : List (String × String))
    (n : String) :
    renderTmpl tmpl sv [(n, false)] =
      joinSep "\n" ((dropRegion (splitCh '\n' tmpl)).map (substLine sv)) := by
  unfold renderTmpl dropRegion
  rw [dropConds_allFalse]
  intro n'
  unfold lookupFlag mapGet
  split <;> rfl

/-- C8: in a run where no installed package matches the isolation
allow-list, the planner state stays empty — so zero isolated-build code
lines and zero injection lines exist, the isolated-build mapping renders
from the empty `ISOLATED` slot — and the build description is rendered
from the template with the conditional injection-support block (markers
included) omitted entirely; in general the conditional block is kept only
when at least one injection step exists. -/
theorem c8_no_isolation_block {env : Env} {proj : Project} {fuel : Nat}
    {g : GenOut} (hnt : strStarts env.cwd env.tempDir = false)
    (hnm : matchedOccs env proj = [])
    (hok : generator env proj fuel = .ok g) :
    planLoop env proj (cacheEntriesOf env proj) fuel
      proj.storedBuildState emptyPlan = .ok emptyPlan ∧
    g.writes = (env.nixExprPath,
        joinSep "\n" ((dropRegion (splitCh '\n' env.projectExprTmpl)).map
          (substLine
            [("PROJECT_NAME", json (env.topLevelIdent.getD "workspace")),
             ("YARN_PATH",
               env.relative (env.dirname env.nixExprPath) (yarnPathOf env)),
             ("LOCKFILE",
               env.relative (env.dirname env.nixExprPath) env.lockfileFilename),
             ("CACHE_FOLDER", json (cacheFolderOf env)),
             ("CACHE_ENTRIES", cacheEntriesCodeOf (cacheEntriesOf env proj)),
             ("ISOLATED", ""),
             ("ISOLATED_INTEGRATION", indent "      " "")]))) ::
      (wrapperOf env).1 ∧
    (∀ st', planLoop env proj (cacheEntriesOf env proj) fuel
        proj.storedBuildState emptyPlan = .ok st' →
      st'.isolatedIntegration ≠ [] → st'.injections ≠ []) := by
  obtain ⟨st0, hpl, hw⟩ := generator_ok_decomp hnt hok
  obtain ⟨_, _, _, _, hid, _⟩ := planLoop_spec hpl planInv_empty
  have hst0 : st0 = emptyPlan := hid (by rw [show matchedOver env proj
    proj.storedBuildState = matchedOccs env proj from rfl, hnm])
  subst hst0
  refine ⟨hpl, ?_, ?_⟩
  · rw [hw]
    have hpe : projectExprOf env (cacheEntriesOf env proj)
        (stAfterLoop emptyPlan) =
        renderTmpl env.projectExprTmpl
          [("PROJECT_NAME", json (env.topLevelIdent.getD "workspace")),
           ("YARN_PATH",
             env.relative (env.dirname env.nixExprPath) (yarnPathOf env)),
           ("LOCKFILE",
             env.relative (env.dirname env.nixExprPath) env.lockfileFilename),
           ("CACHE_FOLDER", json (cacheFolderOf env)),
           ("CACHE_ENTRIES", cacheEntriesCodeOf (cacheEntriesOf env proj)),
           ("ISOLATED", ""),
           ("ISOLATED_INTEGRATION", indent "      " "")]
          [("NEED_ISOLATED_BUILD_SUPPRORT", false)] := rfl
    rw [hpe, renderTmpl_flag_false]
  · intro st' hok' hne
    obtain ⟨⟨_, _, _, _, inv5, _⟩, _⟩ := planLoop_spec hok' planInv_empty
    intro hinjnil
    exact hne (inv5 hinjnil)

/-- Witness for C8 at a concrete run over a template with a conditional
injection-support block: the `secret` block line and both markers are
gone, and the isolated mapping slot renders empty. -/
theorem c8_no_isolation_block_witness :
    planLoop envCondNoIso emptyProj (cacheEntriesOf envCondNoIso emptyProj) 2
      emptyProj.storedBuildState emptyPlan = .ok emptyPlan ∧
    (⟨[], [], [("yarn-project.nix",
        "head cacheEntries = \x7b\n\x7d;\ntail       ")], [], []⟩ :
      GenOut).writes =
      (envCondNoIso.nixExprPath,
        joinSep "\n"
          ((dropRegion (splitCh '\n' envCondNoIso.projectExprTmpl)).map
            (substLine
              [("PROJECT_NAME",
                json (envCondNoIso.topLevelIdent.getD "workspace")),
               ("YARN_PATH",
                 envCondNoIso.relative
                   (envCondNoIso.dirname envCondNoIso.nixExprPath)
                   (yarnPathOf envCondNoIso)),
               ("LOCKFILE",
                 envCondNoIso.relative
                   (envCondNoIso.dirname envCondNoIso.nixExprPath)
                   envCondNoIso.lockfileFilename),
               ("CACHE_FOLDER", json (cacheFolderOf envCondNoIso)),
               ("CACHE_ENTRIES",
                 cacheEntriesCodeOf (cacheEntriesOf envCondNoIso emptyProj)),
               ("ISOLATED", ""),
               ("ISOLATED_INTEGRATION", indent "      " "")]))) ::
        (wrapperOf envCondNoIso).1 ∧
    (∀ st', planLoop envCondNoIso emptyProj
        (cacheEntriesOf envCondNoIso emptyProj) 2
        emptyProj.storedBuildState emptyPlan = .ok st' →
      st'.isolatedIntegration ≠ [] → st'.injections ≠ []) :=
  c8_no_isolation_block (by decide) (by decide) (by decide)

/-- C9: the wrapper `default.nix` is written only when it does not already
exist and no `flake.nix` exists; an existing wrapper or flake file is
never overwritten (no write ever targets `flake.nix`, and none targets
`default.nix` when it exists); the main build description is written on
every completed non-skipped run. -/
theorem c9_wrapper_write_once {env : Env} {proj : Project} {fuel : Nat}
    {g : GenOut} (hok : generator env proj fuel = .ok g)
    (hd1 : env.join env.cwd "default.nix" ≠ env.nixExprPath)
    (hd2 : env.join env.cwd "flake.nix" ≠ env.nixExprPath)
    (hd3 : env.join env.cwd "flake.nix" ≠ env.join env.cwd "default.nix") :
    (strStarts env.cwd env.tempDir = false →
      ∃ c, (env.nixExprPath, c) ∈ g.writes) ∧
    (∀ c, (env.join env.cwd "default.nix", c) ∈ g.writes →
      env.existsSync (env.join env.cwd "default.nix") = false ∧
      env.existsSync (env.join env.cwd "flake.nix") = false) ∧
    (env.existsSync (env.join env.cwd "default.nix") = true →
      ∀ c, (env.join env.cwd "default.nix", c) ∉ g.writes) ∧
    (∀ c, (env.join env.cwd "flake.nix", c) ∉ g.writes) := by
  by_cases ht : strStarts env.cwd env.tempDir = true
  · simp only [generator, ht, if_true] at hok
    simp only [CtResult.ok.injEq] at hok
    subst hok
    refine ⟨?_, ?_, ?_, ?_⟩
    · intro hfalse
      rw [ht] at hfalse
      simp at hfalse
    · intro c hc
      simp at hc
    · intro _ c hc
      simp at hc
    · intro c hc
      simp at hc
  · have hnt : strStarts env.cwd env.tempDir = false := by
      cases hx : strStarts env.cwd env.tempDir
      · rfl
      · exact absurd hx ht
    obtain ⟨st0, _, hw⟩ := generator_ok_decomp hnt hok
    have hwrap : ∀ c p, (p, c) ∈ (wrapperOf env).1 →
        p = env.join env.cwd "default.nix" ∧
        env.existsSync (env.join env.cwd "default.nix") = false ∧
        env.existsSync (env.join env.cwd "flake.nix") = false := by
      intro c p hp
      unfold wrapperOf at hp
      split at hp
      · split at hp
        next hcond =>
          simp only [List.mem_singleton, Prod.mk.injEq] at hp
          simp only [Bool.and_eq_true, Bool.not_eq_true'] at hcond
          exact ⟨hp.1, hcond.1, hcond.2⟩
        next hcond => simp at hp
      · simp at hp
    refine ⟨?_, ?_, ?_, ?_⟩
    · intro _
      exact ⟨_, by rw [hw]; exact List.mem_cons_self _ _⟩
    · intro c hc
      rw [hw] at hc
      rcases List.mem_cons.1 hc with hc | hc
      · exact absurd (congrArg Prod.fst hc) hd1
      · exact (hwrap c _ hc).2
    · intro he c hc
      rw [hw] at hc
      rcases List.mem_cons.1 hc with hc | hc
      · exact absurd (congrArg Prod.fst hc) hd1
      · rw [(hwrap c _ hc).2.1] at he
        simp at he
    · intro c hc
      rw [hw] at hc
      rcases List.mem_cons.1 hc with hc | hc
      · exact absurd (congrArg Prod.fst hc) hd2
      · exact absurd (hwrap c _ hc).1 hd3

/-- Witness for C9: the wrapper-writing run writes the build description
and the wrapper (both absent), never `flake.nix`. -/
theorem c9_wrapper_write_once_witness :
    (strStarts envWrap.cwd envWrap.tempDir = false →
      ∃ c, (envWrap.nixExprPath, c) ∈
        [("yarn-project.nix", "tmpl"), ("/proj/default.nix", "default-tmpl")]) ∧
    (∀ c, (envWrap.join envWrap.cwd "default.nix", c) ∈
        [("yarn-project.nix", "tmpl"), ("/proj/default.nix", "default-tmpl")] →
      envWrap.existsSync (envWrap.join envWrap.cwd "default.nix") = false ∧
      envWrap.existsSync (envWrap.join envWrap.cwd "flake.nix") = false) ∧
    (envWrap.existsSync (envWrap.join envWrap.cwd "default.nix") = true →
      ∀ c, (envWrap.join envWrap.cwd "default.nix", c) ∉
        [("yarn-project.nix", "tmpl"), ("/proj/default.nix", "default-tmpl")]) ∧
    (∀ c, (envWrap.join envWrap.cwd "flake.nix", c) ∉
      [("yarn-project.nix", "tmpl"), ("/proj/default.nix", "default-tmpl")]) :=
  @c9_wrapper_write_once envWrap emptyProj 2
    ⟨["A minimal default.nix was created. You may want to customize it."],
     [], [("yarn-project.nix", "tmpl"), ("/proj/default.nix", "default-tmpl")],
     [], []⟩
    (by decide) (by decide) (by decide) (by decide)

/-- C10: a run whose project directory lies inside the OS temporary
directory returns early with a single informational message and produces
no writes, no staging copies and no store-import invocations; the result
is a normal (non-error) return. -/
theorem c10_temp_dir_skip {env : Env} {proj : Project} {fuel : Nat}
    (h : strStarts env.cwd env.tempDir = true) :
    generator env proj fuel = .ok ⟨["Skipping Nixify, because " ++ env.cwd ++
      " appears to be a temporary directory"], [], [], [], []⟩ := by
  simp [generator, h]

/-- Witness for C10 at a concrete temporary-directory run. -/
theorem c10_temp_dir_skip_witness :
    generator envTmp emptyProj 1 =
      .ok ⟨["Skipping Nixify, because /tmp/xfs-1234/dlx-5678 appears to be a temporary directory"],
        [], [], [], []⟩ :=
  c10_temp_dir_skip (by decide)

theorem mapGet_isSome_map_keyfix {α β : Type} [DecidableEq α]
    {f : α × β → α × β} (hf : ∀ kv, (f kv).1 = kv.1) (k' : α) :
    ∀ m : List (α × β), (mapGet k' (m.map f)).isSome = (mapGet k' m).isSome := by
  intro m
  induction m with
  | nil => rfl
  | cons kv rest ih =>
    simp only [List.map_cons, mapGet, hf kv]
    by_cases hk : kv.1 = k'
    · simp [hk]
    · simp [hk, ih]

theorem mapGet_append_single {α β : Type} [DecidableEq α] (k' k : α) (v : β) :
    ∀ m : List (α × β),
      (mapGet k' (m ++ [(k, v)])).isSome =
        ((mapGet k' m).isSome || decide (k = k')) := by
  intro m
  induction m with
  | nil =>
    simp only [List.nil_append, mapGet]
    by_cases hk : k = k'
    · simp [hk]
    · simp [hk]
  | cons kv rest ih =>
    simp only [List.cons_append, mapGet]
    by_cases hk : kv.1 = k'
    · simp [hk]
    · simp [hk, ih]

theorem mapGet_mapSet_isSome {α β : Type} [DecidableEq α]
    {m : List (α × β)} {k k' : α} {v : β} :
    (mapGet k' (mapSet m k v)).isSome ↔
      (mapGet k' m).isSome ∨ k' = k := by
  unfold mapSet
  split
  next hsome =>
    rw [mapGet_isSome_map_keyfix (fun kv => by by_cases h : kv.1 = k <;> simp [h])]
    constructor
    · exact fun h => Or.inl h
    · rintro (h | rfl)
      · exact h
      · exact hsome
  next hnone =>
    rw [mapGet_append_single]
    constructor
    · intro h
      rcases Bool.or_eq_true _ _ ▸ h with h' | h'
      · exact Or.inl h'
      · exact Or.inr (by simpa [eq_comm] using of_decide_eq_true h')
    · rintro (h | rfl)
      · simp [h]
      · simp

theorem cacheStep_key_iff {env : Env} {proj : Project} (l : String)
    (m : List (String × CacheEntry)) (pkg : Package) :
    (mapGet l (cacheStep env proj m pkg)).isSome ↔
      (mapGet l m).isSome ∨
        (pkg.locatorStr = l ∧
          ∃ p, env.getLocatorPath pkg
              (mapGet pkg.locatorHash proj.storedChecksums) = some p ∧
            env.basename p ∈ env.cacheFiles) := by
  unfold cacheStep
  cases hgl : env.getLocatorPath pkg (mapGet pkg.locatorHash proj.storedChecksums) with
  | none => simp
  | some p0 =>
    by_cases hel : env.basename p0 ∈ env.cacheFiles
    · simp only [if_pos hel]
      rw [mapGet_mapSet_isSome]
      constructor
      · rintro (h | rfl)
        · exact Or.inl h
        · exact Or.inr ⟨rfl, p0, rfl, hel⟩
      · rintro (h | ⟨rfl, _, _, _⟩)
        · exact Or.inl h
        · exact Or.inr rfl
    · simp [hel]

theorem cacheFold_key_iff {env : Env} {proj : Project} (l : String) :
    ∀ (pkgs : List Package) (m0 : List (String × CacheEntry)),
      (mapGet l (pkgs.foldl (cacheStep env proj) m0)).isSome ↔
        (mapGet l m0).isSome ∨
        ∃ pkg ∈ pkgs, pkg.locatorStr = l ∧
          ∃ p, env.getLocatorPath pkg
              (mapGet pkg.locatorHash proj.storedChecksums) = some p ∧
            env.basename p ∈ env.cacheFiles := by
  intro pkgs
  induction pkgs with
  | nil => intro m0; simp
  | cons pkg rest ih =>
    intro m0
    simp only [List.foldl_cons]
    rw [ih, cacheStep_key_iff]
    constructor
    · rintro (⟨h | h⟩ | ⟨q, hq, hrest⟩)
      · exact Or.inl h
      · exact Or.inr ⟨pkg, by simp, h⟩
      · exact Or.inr ⟨q, by simp [hq], hrest⟩
    · rintro (h | ⟨q, hq, hrest⟩)
      · exact Or.inl (Or.inl h)
      · rcases List.mem_cons.1 hq with rfl | hq'
        · exact Or.inl (Or.inr hrest)
        · exact Or.inr ⟨q, hq', hrest⟩

/-- C5: a locator string is a key of the cache-entry map exactly when some
stored package with that locator has retrievable on-disk content: its
derived cache path exists (`getLocatorPath` is non-null) and the derived
filename is present in the cache directory listing. In particular a
package with no cached content never appears as a key. -/
theorem c5_cache_entry_keys (env : Env) (proj : Project) (l : String) :
    (mapGet l (cacheEntriesOf env proj)).isSome ↔
      ∃ pkg ∈ proj.storedPackages.map Prod.snd, pkg.locatorStr = l ∧
        ∃ p, env.getLocatorPath pkg
            (mapGet pkg.locatorHash proj.storedChecksums) = some p ∧
          env.basename p ∈ env.cacheFiles := by
  unfold cacheEntriesOf
  rw [cacheFold_key_iff]
  simp [mapGet]

/-- Witness for C5 at a concrete cache: the virtual package with on-disk
content is a key. -/
theorem c5_cache_entry_keys_witness :
    (mapGet "native-lib@npm:1.0.0" (cacheEntriesOf envIso isoProj)).isSome ↔
      ∃ pkg ∈ isoProj.storedPackages.map Prod.snd,
        pkg.locatorStr = "native-lib@npm:1.0.0" ∧
        ∃ p, envIso.getLocatorPath pkg
            (mapGet pkg.locatorHash isoProj.storedChecksums) = some p ∧
          envIso.basename p ∈ envIso.cacheFiles :=
  c5_cache_entry_keys envIso isoProj "native-lib@npm:1.0.0"
